import Mathlib

/-!
Verification of the npreadtext delimited-text reader.

This file gives a shallow embedding, in Lean, of the C sources of the
npreadtext repository (src/src/\*.c, src/src/\*.h) and proves, or refutes,
a list of claims about them.

Conventions used throughout the embedding:

* A Unicode code point (C type Py_UCS4 / char32_t) is modelled as a Nat.
* A token (the half-open character range [str, end) handed to the value
  converters) is modelled as a List Nat.  The C code relies on the field
  buffer writing a NUL cell directly after every token; reading the cell at
  the end pointer therefore yields 0, which is neither a space nor a digit,
  so every scanning loop of the C code stops at or before the end pointer.
  The list-based model encodes exactly this.
* Machine integers are modelled as Int with the bounds passed explicitly,
  mirroring the C code, whose pre-max overflow test keeps every
  intermediate value representable (no wrap-around can occur, so plain
  integer arithmetic is exact).
* C truncating division and remainder on int64_t are Int.tdiv and
  Int.tmod.
-/

namespace NpReadText

/-- Py_UNICODE_ISSPACE: the Unicode whitespace predicate used by CPython
(and by str_to_int.h / conversions.c through the Py_UNICODE_ISSPACE macro). -/
def isUniSpace (c : Nat) : Bool :=
  decide ((9 ≤ c ∧ c ≤ 13) ∨ (28 ≤ c ∧ c ≤ 31) ∨ c = 32 ∨ c = 133 ∨ c = 160 ∨
    c = 5760 ∨ (8192 ≤ c ∧ c ≤ 8202) ∨ c = 8232 ∨ c = 8233 ∨ c = 8239 ∨
    c = 8287 ∨ c = 12288)

/-- isdigit applied to a code point: true exactly for the ASCII digits
0x30..0x39 (the C isdigit in the "C" locale). -/
def isDigitC (c : Nat) : Bool :=
  decide (48 ≤ c ∧ c ≤ 57)

/-- Digit-processing loop of str_to_int64 (str_to_int.h, non-negative
branch): starting from the accumulator number, consume decimal digits while
the pre-max overflow test allows one more digit; reject (none) at the first
digit that would overflow; stop (keeping the rest) at the first non-digit.
preMax and dig are int_max / 10 and int_max % 10 of the C code. -/
def posDigitLoop (preMax dig : Int) : Int → List Nat → Option (Int × List Nat)
  | number, [] => some (number, [])
  | number, c :: rest =>
    if isDigitC c then
      if number < preMax ∨ (number = preMax ∧ (c : Int) - 48 ≤ dig) then
        posDigitLoop preMax dig (number * 10 + ((c : Int) - 48)) rest
      else none
    else some (number, c :: rest)

/-- Digit-processing loop of str_to_int64 (str_to_int.h, negative branch):
preMin and dig are int_min / 10 and -(int_min % 10) of the C code. -/
def negDigitLoop (preMin dig : Int) : Int → List Nat → Option (Int × List Nat)
  | number, [] => some (number, [])
  | number, c :: rest =>
    if isDigitC c then
      if number > preMin ∨ (number = preMin ∧ (c : Int) - 48 ≤ dig) then
        negDigitLoop preMin dig (number * 10 - ((c : Int) - 48)) rest
      else none
    else some (number, c :: rest)

/-- str_to_int64 from src/src/str_to_int.h (lines 23-100): skip leading
Unicode whitespace, optional sign, at least one ASCII digit, digit loop
with the pre-max/pre-min overflow test, skip trailing whitespace, and
require that the cursor reached the end of the token.  The token is the
character range [p_item, p_end); some value on success, none on the C
return value -1. -/
def str_to_int64 (item : List Nat) (intMin intMax : Int) : Option Int :=
  let p1 := item.dropWhile isUniSpace
  let p2 := if p1.headD 0 = 45 ∨ p1.headD 0 = 43 then p1.tail else p1
  if isDigitC (p2.headD 0) then
    let run := if p1.headD 0 = 45 then
        negDigitLoop (intMin.tdiv 10) (-(intMin.tmod 10)) 0 p2
      else
        posDigitLoop (intMax.tdiv 10) (intMax.tmod 10) 0 p2
    match run with
    | some (number, rest) =>
      if rest.dropWhile isUniSpace = [] then some number else none
    | none => none
  else none

/-- str_to_uint64 from src/src/str_to_int.h (lines 103-159): like the
non-negative branch of str_to_int64, but any leading minus sign (after the
whitespace skip) is rejected outright.  uint_max is passed as an Int; the
pre-max test keeps every intermediate value at most uint_max, so modelling
the C uint64_t arithmetic with unbounded integers is exact. -/
def str_to_uint64 (item : List Nat) (uintMax : Int) : Option Int :=
  let p1 := item.dropWhile isUniSpace
  if p1.headD 0 = 45 then none
  else
    let p2 := if p1.headD 0 = 43 then p1.tail else p1
    if isDigitC (p2.headD 0) then
      match posDigitLoop (uintMax.tdiv 10) (uintMax.tmod 10) 0 p2 with
      | some (number, rest) =>
        if rest.dropWhile isUniSpace = [] then some number else none
      | none => none
    else none

/-- Fuel-driven helper for natDigits; with fuel at least the number itself
the fuel never runs out, and structural recursion keeps the function
kernel-reducible. -/
def natDigitsF : Nat → Nat → List Nat
  | 0, n => [48 + n]
  | f + 1, n => if n < 10 then [48 + n] else natDigitsF f (n / 10) ++ [48 + n % 10]

/-- Decimal digit string (most significant digit first, as ASCII code
points) of a natural number; the canonical form printed by C %d / Python
str for its absolute value. -/
def natDigits (n : Nat) : List Nat :=
  natDigitsF n n

/-- Canonical decimal token of an integer: a minus sign followed by the
digits of the absolute value for negative numbers, the plain digits
otherwise. -/
def decTok (v : Int) : List Nat :=
  if v < 0 then 45 :: natDigits v.natAbs else natDigits v.natAbs

/-- Value denoted by a digit string when accumulated onto acc, exactly the
accumulation performed by the digit loops. -/
def accDigits (acc : Int) (ds : List Nat) : Int :=
  ds.foldl (fun a c => a * 10 + ((c : Int) - 48)) acc

/-!
Floating-point conversion (src/src/conversions.c).

The C code converts the token to ASCII and calls PyOS_string_to_double.
The value of a parse is modelled exactly, as the decimal m * 10 ^ e (plus
distinguished infinity and nan results); the rounding of the decimal
literal to the nearest IEEE double is abstracted away — none of the claims
below depends on the rounded bit pattern, only on which tokens parse, how
many characters the parse consumes, and truncation toward zero.
-/

/-- Result of the host float parser: a finite value, represented exactly
as the signed decimal m * 10 ^ e; a signed infinity (also returned by
PyOS_string_to_double on overflow); or nan. -/
inductive PyFloatVal where
  | num (m e : Int)
  | inf (neg : Bool)
  | nan
deriving DecidableEq

/-- Case-insensitive match of an ASCII lowercase pattern against the head
of the input. -/
def matchesCI : List Nat → List Nat → Bool
  | [], _ => true
  | _ :: _, [] => false
  | p :: ps, c :: cs => (decide (c = p) || decide (c + 32 = p)) && matchesCI ps cs

/-- Numeric value of an ASCII digit string. -/
def digitsNat (ds : List Nat) : Nat :=
  ds.foldl (fun a c => a * 10 + (c - 48)) 0

/-- Exponent part of the float grammar, after the e/E marker: optional
sign, then at least one digit; none when malformed (the caller then rolls
back to the end of the mantissa, as strtod does). Result is the signed
exponent value and the number of characters consumed including the
marker. -/
def expAfterE (r : List Nat) : Option (Int × Nat) :=
  let signNeg : Bool := match r with
    | 45 :: _ => true
    | _ => false
  let soff : Nat := match r with
    | 45 :: _ => 1
    | 43 :: _ => 1
    | _ => 0
  let r1 := r.drop soff
  let ed := r1.takeWhile isDigitC
  if ed.length = 0 then none
  else
    let e : Int := (digitsNat ed : Int)
    some (if signNeg then -e else e, 1 + soff + ed.length)

/-- PyOS_string_to_double with an end pointer, modelled on the ASCII copy
of the token: longest prefix matching the CPython float grammar (optional
sign; digits with optional fraction, at least one digit overall, optional
well-formed exponent; or inf / infinity / nan, case-insensitively).  none
models the ValueError raised when no initial segment parses; otherwise the
exact value and the number of characters consumed. -/
def pyosStrtod (s : List Nat) : Option (PyFloatVal × Nat) :=
  let sgnNeg : Bool := match s with
    | 45 :: _ => true
    | _ => false
  let off : Nat := match s with
    | 45 :: _ => 1
    | 43 :: _ => 1
    | _ => 0
  let s1 := s.drop off
  if matchesCI [105, 110, 102, 105, 110, 105, 116, 121] s1 then
    some (.inf sgnNeg, off + 8)
  else if matchesCI [105, 110, 102] s1 then
    some (.inf sgnNeg, off + 3)
  else if matchesCI [110, 97, 110] s1 then
    some (.nan, off + 3)
  else
    let ip := s1.takeWhile isDigitC
    let s2 := s1.drop ip.length
    let hasDot : Bool := match s2 with
      | 46 :: _ => true
      | _ => false
    let fp := if hasDot then (s2.drop 1).takeWhile isDigitC else []
    let dotLen : Nat := if hasDot then 1 else 0
    if ip.length = 0 ∧ fp.length = 0 then none
    else
      let mantLen := off + ip.length + dotLen + fp.length
      let s3 := s1.drop (ip.length + dotLen + fp.length)
      let mant : Int := (digitsNat ip * 10 ^ fp.length + digitsNat fp : Nat)
      let expPart : Option (Int × Nat) := match s3 with
        | 101 :: r => expAfterE r
        | 69 :: r => expAfterE r
        | _ => none
      let (e, eLen) := match expPart with
        | some (e, n) => (e, n)
        | none => ((0 : Int), 0)
      some (.num (if sgnNeg then -mant else mant) (e - fp.length), mantLen + eLen)

/-- double_from_ucs4 from src/src/conversions.c (lines 47-98): skip leading
Unicode whitespace; fail on an empty remainder; copy the maximal ASCII
(code point < 128) prefix and hand it to the host float parser; fail when
nothing was parsed; rewind the end pointer by the number of unparsed ASCII
characters (note: the characters dropped by the ASCII copy are NOT
subtracted — the faithful model of the C arithmetic
end = end - (c - end_parsed)); optionally skip trailing whitespace.
Returns (value, final cursor offset, length), both offsets relative to the
whitespace-stripped token. -/
def double_from_ucs4 (item : List Nat) (skipTrailing : Bool) :
    Option (PyFloatVal × Nat × Nat) :=
  let rest := item.dropWhile isUniSpace
  let L := rest.length
  if L = 0 then none
  else
    let k := (rest.takeWhile (fun c => decide (c < 128))).length
    match pyosStrtod (rest.take k) with
    | none => none
    | some (v, m) =>
      let endOff := L - (k - m)
      let endOff2 := if skipTrailing then
          endOff + ((rest.drop endOff).takeWhile isUniSpace).length
        else endOff
      some (v, endOff2, L)

/-- to_double from src/src/conversions.c (lines 131-150): parse with
trailing-whitespace skip and succeed only when the cursor reached the end
of the token. -/
def to_double (item : List Nat) : Option PyFloatVal :=
  match double_from_ucs4 item true with
  | some (v, pEnd, L) => if pEnd = L then some v else none
  | none => none

/-- to_float from src/src/conversions.c (lines 108-128): identical control
flow to to_double; the narrowing of the double value to float is abstracted
away (the claims only concern success and failure). -/
def to_float (item : List Nat) : Option PyFloatVal :=
  match double_from_ucs4 item true with
  | some (v, pEnd, L) => if pEnd = L then some v else none
  | none => none

/-- Value stored by the C integer cast of a parsed double.  For a finite
value m * 10 ^ e this is truncation toward zero (Int.tdiv truncates toward
zero); casting an infinity or nan to an integer type is undefined
behaviour in C and is modelled as 0. -/
def pyFloatTrunc : PyFloatVal → Int
  | .num m e => if 0 ≤ e then m * 10 ^ e.toNat else m.tdiv (10 ^ (-e).toNat)
  | .inf _ => 0
  | .nan => 0

/-- DECLARE_TO_INT from src/src/str_to_int.c (lines 13-44), generic in the
width bounds: try str_to_int64 with the width's bounds; on failure, if
allow_float_for_int is set, fall back to to_double and truncate toward
zero, failing exactly when to_double fails; without the flag the integer
failure is final.  The (intw_t) cast of a successful integer parse is the
identity because the pre-max test already confined the value to
[int_min, int_max]. -/
def to_intw (intMin intMax : Int) (item : List Nat) (allowFloatForInt : Bool) :
    Option Int :=
  match str_to_int64 item intMin intMax with
  | some parsed => some parsed
  | none =>
    if allowFloatForInt then
      match to_double item with
      | some fx => some (pyFloatTrunc fx)
      | none => none
    else none

/-- DECLARE_TO_UINT from src/src/str_to_int.c (lines 46-77), generic in
uint_max, with the same float fallback. -/
def to_uintw (uintMax : Int) (item : List Nat) (allowFloatForInt : Bool) :
    Option Int :=
  match str_to_uint64 item uintMax with
  | some parsed => some parsed
  | none =>
    if allowFloatForInt then
      match to_double item with
      | some fx => some (pyFloatTrunc fx)
      | none => none
    else none

/-- to_int8 (str_to_int.c line 79). -/
def to_int8 (item : List Nat) (allowFloatForInt : Bool) : Option Int :=
  to_intw (-128) 127 item allowFloatForInt

/-- to_int16 (str_to_int.c line 80). -/
def to_int16 (item : List Nat) (allowFloatForInt : Bool) : Option Int :=
  to_intw (-32768) 32767 item allowFloatForInt

/-- to_int32 (str_to_int.c line 81). -/
def to_int32 (item : List Nat) (allowFloatForInt : Bool) : Option Int :=
  to_intw (-2147483648) 2147483647 item allowFloatForInt

/-- to_int64 (str_to_int.c line 82). -/
def to_int64 (item : List Nat) (allowFloatForInt : Bool) : Option Int :=
  to_intw (-9223372036854775808) 9223372036854775807 item allowFloatForInt

/-- to_uint8 (str_to_int.c line 84). -/
def to_uint8 (item : List Nat) (allowFloatForInt : Bool) : Option Int :=
  to_uintw 255 item allowFloatForInt

/-- to_uint16 (str_to_int.c line 85). -/
def to_uint16 (item : List Nat) (allowFloatForInt : Bool) : Option Int :=
  to_uintw 65535 item allowFloatForInt

/-- to_uint32 (str_to_int.c line 86). -/
def to_uint32 (item : List Nat) (allowFloatForInt : Bool) : Option Int :=
  to_uintw 4294967295 item allowFloatForInt

/-- to_uint64 (str_to_int.c line 87). -/
def to_uint64 (item : List Nat) (allowFloatForInt : Bool) : Option Int :=
  to_uintw 18446744073709551615 item allowFloatForInt

/-!
Row reading (src/src/rows.c).

read_rows drives a tokenizer that yields one row of tokens per call; the
rows are modelled as the list of tokenization results (each row a list of
tokens, each token a list of code points), which abstracts the stream and
the tokenizer that rows.c couples to.  The model covers the homogeneous
case num_field_types = 1 with nrows < 0 (read everything), the case the
field-count claims are about; the per-cell conversion is a parameter
conv (the set_from_text of the single field type, e.g. to_int32), and user
converter callables are modelled by their ids together with a host
evaluation function callConv (a callable is external Python code).
error_types.h is not under src/, so the error codes are modelled as an
enumeration; line_number is modelled as the index of the offending row
(the C code records the stream line count at that point). -/

/-- Error kinds of rows.c (error_types.h is not in the source tree; the
names follow the ERROR_* uses in rows.c). -/
inductive ErrType where
  | changedNumberOfFields
  | invalidColumnIndex
  | converterFailed
  | badField
  | outOfMemory
deriving DecidableEq

/-- Error record filled in by read_rows (read_error_type). -/
structure ReadErr where
  errorType : ErrType
  lineNumber : Int
  columnIndex : Int
deriving DecidableEq

/-- PyDict_GetItem on the converters dict, modelled on an association
list keyed by the column index. -/
def lookupConv (converters : List (Int × Nat)) (k : Int) : Option Nat :=
  match converters with
  | [] => none
  | (k0, f) :: rest => if k0 = k then some f else lookupConv rest k

/-- Loop body of create_conv_funcs (rows.c lines 178-202): for output
column j the file column is j itself (usecols absent) or usecols[j]; the
converter bound is the dict entry at that key, or, when absent, the entry
at key minus current_num_fields.  No range check and no callability check
is performed; keys that match no column are simply never looked up. -/
def createConvLoop (converters : List (Int × Nat)) (usecols : Option (List Int))
    (currentNumFields : Int) : Nat → Nat → List (Option Nat)
  | _, 0 => []
  | j, count + 1 =>
    let k : Int := match usecols with
      | none => (j : Int)
      | some us => us.getD j 0
    let f := match lookupConv converters k with
      | some f => some f
      | none => lookupConv converters (k - currentNumFields)
    f :: createConvLoop converters usecols currentNumFields (j + 1) count

/-- create_conv_funcs from src/src/rows.c (lines 167-204).  The C function
can fail only on out-of-memory (calloc), which the model omits. -/
def create_conv_funcs (converters : List (Int × Nat)) (usecols : Option (List Int))
    (numUsecols : Nat) (currentNumFields : Int) : List (Option Nat) :=
  createConvLoop converters usecols currentNumFields 0 numUsecols

/-- Conversion of one output cell, mirroring the per-field body of the
read_rows loop (rows.c lines 448-514, integer typecode branch): when a
converter callable is bound it is invoked on the token (its failure is
ERROR_CONVERTER_FAILED); otherwise, when the file column exists in the
current row, the field type conversion runs (its failure is
ERROR_BAD_FIELD); when the guard k < current_num_fields fails the cell
keeps the zero initialisation. -/
def convertCell (conv : List Nat → Option Int) (callConv : Nat → List Nat → Option Int)
    (cf : Option Nat) (row : List (List Nat)) (k : Int) (rowIdx : Nat) :
    Except ReadErr Int :=
  match cf with
  | some f =>
    match callConv f (row.getD k.toNat []) with
    | some v => .ok v
    | none => .error ⟨.converterFailed, (rowIdx : Int), k⟩
  | none =>
    if k < (row.length : Int) then
      match conv (row.getD k.toNat []) with
      | some v => .ok v
      | none => .error ⟨.badField, (rowIdx : Int), k⟩
    else .ok 0

/-- Resolution of the file column index for output column j (rows.c lines
456-472): with usecols absent the output index itself; otherwise the
usecols entry, normalised against the current row when negative and
bounds-checked against it. -/
def resolveCol (usecolsNorm : Option (List Int)) (row : List (List Nat))
    (rowIdx j : Nat) : Except ReadErr Int :=
  match usecolsNorm with
  | none => .ok (j : Int)
  | some us =>
    let k0 := us.getD j 0
    let k := if k0 < 0 then k0 + (row.length : Int) else k0
    if k < 0 ∨ (row.length : Int) ≤ k then
      .error ⟨.invalidColumnIndex, (rowIdx : Int), us.getD j 0⟩
    else .ok k

/-- Per-row column loop of read_rows (rows.c lines 448-805): resolve the
file column index, then convert the cell; any error aborts the row. -/
def processRow (conv : List Nat → Option Int) (callConv : Nat → List Nat → Option Int)
    (convFuncs : List (Option Nat)) (usecolsNorm : Option (List Int))
    (row : List (List Nat)) (rowIdx : Nat) : Nat → Nat → Except ReadErr (List Int)
  | _, 0 => .ok []
  | j, count + 1 =>
    match resolveCol usecolsNorm row rowIdx j with
    | .error e => .error e
    | .ok k =>
      match convertCell conv callConv (convFuncs.getD j none) row k rowIdx with
      | .error e => .error e
      | .ok v =>
        match processRow conv callConv convFuncs usecolsNorm row rowIdx (j + 1) count with
        | .error e => .error e
        | .ok rest => .ok (v :: rest)

/-- Main row loop of read_rows: for each tokenized row, first the
changed-number-of-fields check (rows.c lines 429-437) — fatal when usecols
is absent and the field count differs from actual_num_fields, recording
the offending row and the field count found — then the per-column
conversions. -/
def readRowsLoop (conv : List Nat → Option Int) (callConv : Nat → List Nat → Option Int)
    (convFuncs : List (Option Nat)) (usecolsNorm : Option (List Int))
    (numUsecols actualNumFields : Nat) :
    List (List (List Nat)) → Nat → Except ReadErr (List (List Int))
  | [], _ => .ok []
  | row :: rest, i =>
    if usecolsNorm = none ∧ actualNumFields ≠ row.length then
      .error ⟨.changedNumberOfFields, (i : Int), (row.length : Int)⟩
    else
      match processRow conv callConv convFuncs usecolsNorm row i 0 numUsecols with
      | .error e => .error e
      | .ok cells =>
        match readRowsLoop conv callConv convFuncs usecolsNorm numUsecols
          actualNumFields rest (i + 1) with
        | .error e => .error e
        | .ok others => .ok (cells :: others)

/-- read_rows from src/src/rows.c (lines 242-833) for a homogeneous
single field type and nrows < 0: the first row fixes actual_num_fields
(the usecols length when given, else the first row field count), usecols
entries are normalised in place against the first row field count, the
converter table is built, and the row loop runs.  An error returns no
table (the C function returns NULL). -/
def read_rows (rows : List (List (List Nat))) (usecols : Option (List Int))
    (converters : Option (List (Int × Nat))) (callConv : Nat → List Nat → Option Int)
    (conv : List Nat → Option Int) : Except ReadErr (List (List Int)) :=
  match rows with
  | [] => .ok []
  | r0 :: _ =>
    let actualNumFields := match usecols with
      | none => r0.length
      | some us => us.length
    let numUsecols := actualNumFields
    let usecolsNorm := usecols.map (fun us =>
      us.map (fun c => if c < 0 then c + (r0.length : Int) else c))
    let convFuncs := match converters with
      | none => List.replicate numUsecols none
      | some cs => create_conv_funcs cs usecolsNorm numUsecols (r0.length : Int)
    readRowsLoop conv callConv convFuncs usecolsNorm numUsecols actualNumFields rows 0

/-- Index of the first row whose field count differs from n. -/
def firstMismatch (n : Nat) : List (List (List Nat)) → Option Nat
  | [] => none
  | r :: rest =>
    if r.length ≠ n then some 0 else (firstMismatch n rest).map (· + 1)

/-!
Dialect defaults (src/src/_readtextmodule.c).

Both entry points _readtext_from_filename (lines 264-272) and
_readtext_from_file_object (lines 337-345) fill the parser_config with the
same values; the record below holds exactly the fields those lines assign.
The struct members that rows.c and str_to_int.c read but these entry
points never assign (imaginary_unit, allow_float_for_int, byte_converters)
are left uninitialised by the C code and are therefore not part of this
record. -/

/-- Fields of parser_config assigned by the module entry points. -/
structure ModuleParserConfig where
  delimiter : Nat
  comment : Nat
  quote : Nat
  decimal : Nat
  sci : Nat
  allowEmbeddedNewline : Bool
  ignoreLeadingSpaces : Bool
  ignoreTrailingSpaces : Bool
  strictNumFields : Bool
deriving DecidableEq

/-- Configuration produced when the caller supplies no dialect overrides:
delimiter "," (44), comment "#" (35), quote (34), decimal "." (46),
sci "E" (69), and the four booleans exactly as assigned by
_readtext_from_filename / _readtext_from_file_object. -/
def default_parser_config : ModuleParserConfig :=
  ⟨44, 35, 34, 46, 69, true, true, true, false⟩

/-!
The tokenizer (src/src/tokenize.c).

The chunked stream interface (stream_nextbuf, the BUFFER_* status values
and the TOKENIZE_* state constants of this tokenizer's header) is not in
the source tree — src/src/stream.h and src/src/tokenize.h belong to an
older revision; those parts are modelled from the spec (sections 4.5 and
6.1): the stream is a list of chunks, each a list of code points tagged
with its buffer status, and an exhausted stream keeps yielding an empty
chunk with the file-end status.  Which states are "outside a field" (the
TOKENIZE_OUTSIDE_FIELD mask) is forced by the code's behaviour: a field is
finalized exactly on the transitions into INIT, WHITESPACE, EAT_CRLF,
FINALIZE_LINE and FINALIZE_FILE, and must not be finalized in UNQUOTED,
QUOTED, QUOTED_CHECK_DOUBLE_QUOTE or CHECK_COMMENT.

The field buffer is modelled as the list of cells [0, field_buffer_pos):
copy_to_field_buffer appends the copied slice (the NUL it writes at
field_buffer_pos is not yet part of the prefix), and add_field, which
advances field_buffer_pos over that NUL, appends the 0 cell.
-/

/-- Buffer status returned by stream_nextbuf (modelled from spec section
6.1). -/
inductive BufState where
  | mayContainNewline
  | noNewline
  | fileend
deriving DecidableEq

/-- Tokenizer states of tokenize.c (the enum of this revision's header is
not in the tree; the names follow the TOKENIZE_* uses in tokenize.c). -/
inductive TokParseState where
  | init
  | unquoted
  | quoted
  | quotedCheckDoubleQuote
  | whitespace
  | checkComment
  | finalizeLine
  | eatCrlf
  | finalizeFile
deriving DecidableEq

/-- The TOKENIZE_OUTSIDE_FIELD mask: true for the states in which a
completed field is finalized (see the module comment above). -/
def isOutsideField : TokParseState → Bool
  | .init => true
  | .whitespace => true
  | .finalizeLine => true
  | .eatCrlf => true
  | .finalizeFile => true
  | _ => false

/-- Entry of the fields index as written by add_field in tokenize.c: the
word offset into the field buffer, its length, and the quoted flag. -/
structure FieldInfo where
  offset : Nat
  length : Nat
  quoted : Bool
deriving DecidableEq

/-- Fields of parser_config read by tokenize.c: delimiter, quote, the
two-character comment marker (comment1 = 0 for a single-character
marker), and the two boolean policies. -/
structure TokConfig where
  delimiter : Nat
  quote : Nat
  comment0 : Nat
  comment1 : Nat
  allowEmbeddedNewline : Bool
  ignoreLeadingSpaces : Bool
deriving DecidableEq

/-- Tokenizer state (tokenizer_state) together with the locals of one
tokenize call (started_saving_word, word_start, word_length, is_quoted)
and the remaining stream. -/
structure TokLoopState where
  state : TokParseState
  bufState : BufState
  chunk : List Nat
  pos : Nat
  stream : List (List Nat × BufState)
  numFields : Nat
  fieldBuffer : List Nat
  fields : List FieldInfo
  started : Bool
  wordStart : Nat
  wordLen : Nat
  isQuoted : Bool
deriving DecidableEq

/-- Scanning loop of the TOKENIZE_UNQUOTED case (tokenize.c lines
176-197): advance until a carriage return or newline (to EAT_CRLF), the
delimiter (to INIT), or the first comment character (to CHECK_COMMENT
when the marker has a second character, else to FINALIZE_LINE); reaching
the chunk end leaves the state unchanged.  Returns the stop position and
the new state. -/
def scanUnquotedF (cfg : TokConfig) (chunk : List Nat) :
    Nat → Nat → Nat × TokParseState
  | 0, pos => (pos, .unquoted)
  | f + 1, pos =>
    if pos < chunk.length then
      let c := chunk.getD pos 0
      if c = 13 ∨ c = 10 then (pos, .eatCrlf)
      else if c = cfg.delimiter then (pos, .init)
      else if c = cfg.comment0 then
        if cfg.comment1 ≠ 0 then (pos, .checkComment) else (pos, .finalizeLine)
      else scanUnquotedF cfg chunk f (pos + 1)
    else (pos, .unquoted)

/-- Runs the unquoted scan with enough fuel to cross the chunk. -/
def scanUnquoted (cfg : TokConfig) (chunk : List Nat) (pos : Nat) :
    Nat × TokParseState :=
  scanUnquotedF cfg chunk (chunk.length - pos) pos

/-- Scanning loop of the TOKENIZE_QUOTED case (tokenize.c lines 202-220):
advance until the quote character (to QUOTED_CHECK_DOUBLE_QUOTE) or, when
embedded newlines are not allowed, a newline (to EAT_CRLF). -/
def scanQuotedF (cfg : TokConfig) (chunk : List Nat) :
    Nat → Nat → Nat × TokParseState
  | 0, pos => (pos, .quoted)
  | f + 1, pos =>
    if pos < chunk.length then
      let c := chunk.getD pos 0
      if ¬cfg.allowEmbeddedNewline ∧ (c = 13 ∨ c = 10) then (pos, .eatCrlf)
      else if c ≠ cfg.quote then scanQuotedF cfg chunk f (pos + 1)
      else (pos, .quotedCheckDoubleQuote)
    else (pos, .quoted)

/-- Runs the quoted scan with enough fuel to cross the chunk. -/
def scanQuoted (cfg : TokConfig) (chunk : List Nat) (pos : Nat) :
    Nat × TokParseState :=
  scanQuotedF cfg chunk (chunk.length - pos) pos

/-- Position after skipping a run of spaces (code point 32), used by the
TOKENIZE_WHITESPACE case and by the leading-space skip of TOKENIZE_INIT. -/
def skipBlanks (chunk : List Nat) (pos : Nat) : Nat :=
  pos + ((chunk.drop pos).takeWhile (fun c => decide (c = 32))).length

/-- Position of the next carriage return or newline at or after pos (the
chunk length when there is none), used by TOKENIZE_FINALIZE_LINE. -/
def scanToNewline (chunk : List Nat) (pos : Nat) : Nat :=
  pos + ((chunk.drop pos).takeWhile (fun c => decide (¬(c = 13 ∨ c = 10)))).length

/-- copy_to_field_buffer (tokenize.c lines 54-87) combined with the
started_saving_word bookkeeping of the main loop: start the word if
necessary, append the slice to the field buffer and extend the word
length. -/
def copyChunk (l : TokLoopState) (slice : List Nat) : TokLoopState :=
  let l2 := if l.started then l else { l with wordStart := l.fieldBuffer.length, wordLen := 0 }
  { l2 with fieldBuffer := l2.fieldBuffer ++ slice,
            wordLen := l2.wordLen + slice.length,
            started := true }

/-- add_field (tokenize.c lines 90-112) combined with the caller's reset
of started_saving_word: advance over the separator NUL and record
{offset, length, quoted} as the next fields entry. -/
def addFieldStep (l : TokLoopState) : TokLoopState :=
  { l with fieldBuffer := l.fieldBuffer ++ [0],
           fields := l.fields ++ [⟨l.wordStart, l.wordLen, l.isQuoted⟩],
           numFields := l.numFields + 1,
           started := false }

/-- Post-switch bookkeeping of the main loop (tokenize.c lines 326-332):
finalize the word when one is being saved and the new state is outside a
field. -/
def postSwitch (l : TokLoopState) : TokLoopState :=
  if l.started ∧ isOutsideField l.state then addFieldStep l else l

/-- Outcome of one iteration of the while(1) loop of tokenize. -/
inductive TokIterOut where
  | cont (l : TokLoopState)
  | done (res : Nat) (l : TokLoopState)
  | fail
deriving DecidableEq

/-- One iteration of the tokenize while(1) loop (tokenize.c lines
151-333).  When the cursor has reached the chunk end the next chunk is
fetched first (the C code then falls through to the switch within the
same iteration; the model continues into the next iteration, which is
behaviourally identical); an empty fetch at file end either finishes with
result 1 (outside a field) or finalizes the last field via
TOKENIZE_FINALIZE_FILE; an empty fetch before file end is the C error
return.  Otherwise the switch on the current state runs, followed by the
chunk copy and the field-finalizing check. -/
def tokIter (cfg : TokConfig) (l : TokLoopState) : TokIterOut :=
  if l.chunk.length ≤ l.pos then
    match l.stream with
    | [] =>
      let l2 := { l with chunk := [], pos := 0, bufState := .fileend }
      if isOutsideField l2.state then .done 1 l2
      else .cont (postSwitch { l2 with state := .finalizeFile })
    | (ch, bs) :: rest =>
      let l2 := { l with chunk := ch, pos := 0, bufState := bs, stream := rest }
      if ch.length = 0 then
        if bs ≠ .fileend then .fail
        else if isOutsideField l2.state then .done 1 l2
        else .cont (postSwitch { l2 with state := .finalizeFile })
      else .cont l2
  else
    match l.state with
    | .unquoted =>
      let sr := scanUnquoted cfg l.chunk l.pos
      let slice := (l.chunk.drop l.pos).take (sr.1 - l.pos)
      .cont (postSwitch (copyChunk { l with state := sr.2, pos := sr.1 + 1 } slice))
    | .quoted =>
      let sr := scanQuoted cfg l.chunk l.pos
      let slice := (l.chunk.drop l.pos).take (sr.1 - l.pos)
      .cont (postSwitch (copyChunk { l with state := sr.2, pos := sr.1 + 1 } slice))
    | .whitespace =>
      let stop := skipBlanks l.chunk l.pos
      let st := if stop < l.chunk.length then TokParseState.init else l.state
      .cont (postSwitch { l with state := st, pos := stop })
    | .init =>
      let p := if cfg.ignoreLeadingSpaces then skipBlanks l.chunk l.pos else l.pos
      if l.chunk.length ≤ p then .cont (postSwitch { l with pos := p })
      else if l.chunk.getD p 0 = cfg.quote then
        .cont (postSwitch { l with isQuoted := true, state := .quoted, pos := p + 1 })
      else
        .cont (postSwitch { l with isQuoted := false, state := .unquoted, pos := p })
    | .checkComment =>
      if l.chunk.getD l.pos 0 = cfg.comment1 then
        .cont (postSwitch { l with state := .finalizeLine, pos := l.pos + 1 })
      else
        .cont (postSwitch (copyChunk { l with state := .unquoted } [cfg.comment0]))
    | .quotedCheckDoubleQuote =>
      if l.chunk.getD l.pos 0 = cfg.quote then
        .cont (postSwitch { l with state := .quoted, pos := l.pos + 1 })
      else
        .cont (postSwitch { l with state := .unquoted })
    | .finalizeLine =>
      if l.bufState ≠ .mayContainNewline then
        .done 0 { l with state := .init, pos := l.chunk.length }
      else
        let stop := scanToNewline l.chunk l.pos
        let st := if stop < l.chunk.length then TokParseState.eatCrlf else l.state
        .cont (postSwitch { l with state := st, pos := stop })
    | .eatCrlf =>
      let c := l.chunk.getD l.pos 0
      let p := if c = 10 ∨ c = 13 then l.pos + 1 else l.pos
      .done 0 { l with state := .init, pos := p }
    | .finalizeFile =>
      .cont (postSwitch l)

/-- The finish label of tokenize (tokenize.c lines 335-339): a row made of
exactly one zero-length field reports zero fields. -/
def elideRow (l : TokLoopState) : TokLoopState :=
  if l.numFields = 1 ∧ (l.fields.getD 0 ⟨0, 0, false⟩).length = 0 then
    { l with numFields := l.numFields - 1 }
  else l

/-- Fuel-driven run of the tokenize loop; none on fuel exhaustion or on
the C error return -1. -/
def tokLoop (cfg : TokConfig) : Nat → TokLoopState → Option (Nat × TokLoopState)
  | 0, _ => none
  | fuel + 1, l =>
    match tokIter cfg l with
    | .cont l2 => tokLoop cfg fuel l2
    | .done res l2 => some (res, elideRow l2)
    | .fail => none

/-- tokenize from src/src/tokenize.c (lines 131-340): reset the field
buffer position, the field count and the per-call locals, then run the
loop.  The persistent parts of the state (scanner state, current chunk and
cursor, remaining stream) carry over between calls. -/
def tokenize (cfg : TokConfig) (fuel : Nat) (l : TokLoopState) :
    Option (Nat × TokLoopState) :=
  tokLoop cfg fuel { l with numFields := 0, fieldBuffer := [], fields := [],
                            started := false, wordStart := 0, wordLen := 0,
                            isQuoted := false }

/-- tokenizer_init (tokenize.c lines 356-371) together with a stream
holding the given chunks. -/
def initTokState (chunks : List (List Nat × BufState)) : TokLoopState :=
  ⟨.init, .mayContainNewline, [], 0, chunks, 0, [], [], false, 0, 0, false⟩

/-- Comma/quote/hash dialect for concrete runs (a single-character comment
marker, embedded newlines allowed, no leading-space skipping). -/
def csvTokConfig : TokConfig :=
  ⟨44, 34, 35, 0, true, false⟩

/-!
The file-backed stream (src/src/stream_file.c).

The FILE object is modelled as the list of its bytes plus a read cursor;
fread(ptr, 1, n, f) reads min(n, remaining) bytes and feof becomes true
exactly when a read returned fewer bytes than requested (the model has no
I/O errors).  The buffer memory is a function from index to byte. -/

/-- file_buffer (stream_file.c lines 27-58), with the FILE replaced by its
contents and a position. -/
structure FileBuffer where
  fileData : List Nat
  filePos : Nat
  buf : Nat → Nat
  currentBufferPos : Nat
  lastPos : Nat
  reachedEof : Bool
  lineNumber : Int
  bufferSize : Nat

/-- The local k of _fb_load: the number of unconsumed bytes left in the
buffer (0 or 1 when the load condition holds). -/
def fbK (fb : FileBuffer) : Nat :=
  fb.lastPos - fb.currentBufferPos

/-- The fread result of _fb_load: min(requested, remaining) bytes. -/
def fbNumRead (fb : FileBuffer) : Nat :=
  min (fb.bufferSize - fbK fb) (fb.fileData.length - fb.filePos)

/-- The buffer memory after _fb_load: positions [0, k) hold the moved
leftover byte (buffer[0] = buffer[current_buffer_pos] when k = 1),
positions [k, k + num_read) hold the bytes read from the file, the rest is
unchanged. -/
def fbBuf2 (fb : FileBuffer) : Nat → Nat := fun i =>
  if fbK fb ≤ i ∧ i < fbK fb + fbNumRead fb then
    fb.fileData.getD (fb.filePos + (i - fbK fb)) 0
  else if fbK fb = 1 ∧ i = 0 then fb.buf fb.currentBufferPos
  else fb.buf i

/-- _fb_load (stream_file.c lines 79-108): when at most one unconsumed
byte remains and the end of the file has not been reached, move that byte
(if any) to the front of the buffer and fill the rest from the file;
a short read (possible only when the file data ran out) sets
reached_eof. -/
def fb_load (fb : FileBuffer) : FileBuffer :=
  if fb.reachedEof = false ∧ (fb.currentBufferPos = fb.lastPos ∨
      fb.currentBufferPos + 1 = fb.lastPos) then
    { fb with buf := fbBuf2 fb,
              filePos := fb.filePos + fbNumRead fb,
              currentBufferPos := 0,
              lastPos := fbNumRead fb + fbK fb,
              reachedEof := if fbNumRead fb < fb.bufferSize - fbK fb then true
                            else fb.reachedEof }
  else fb

/-- Result of one fb_fetch: a character or end of file. -/
inductive FetchResult where
  | char (c : Nat)
  | eof
deriving DecidableEq

/-- fb_fetch (stream_file.c lines 124-152): refill if needed; end of file
when the buffer is exhausted; when the next two buffered bytes are CR LF
deliver a single newline and advance by two, otherwise deliver one byte;
every delivered newline increments the line counter. -/
def fb_fetch (fb : FileBuffer) : FetchResult × FileBuffer :=
  let fb := fb_load fb
  if fb.currentBufferPos = fb.lastPos then (.eof, fb)
  else if fb.currentBufferPos + 1 < fb.lastPos ∧
      fb.buf fb.currentBufferPos = 13 ∧ fb.buf (fb.currentBufferPos + 1) = 10 then
    (.char 10, { fb with currentBufferPos := fb.currentBufferPos + 2,
                         lineNumber := fb.lineNumber + 1 })
  else
    let c := fb.buf fb.currentBufferPos
    let fb2 := { fb with currentBufferPos := fb.currentBufferPos + 1 }
    (.char c, if c = 10 then { fb2 with lineNumber := fb2.lineNumber + 1 } else fb2)

/-- Repeated fb_fetch until end of file (fuel-driven): the list of
delivered characters and the final state. -/
def fetchAll : Nat → FileBuffer → List Nat × FileBuffer
  | 0, fb => ([], fb)
  | fuel + 1, fb =>
    match fb_fetch fb with
    | (.eof, fb2) => ([], fb2)
    | (.char c, fb2) =>
      let r := fetchAll fuel fb2
      (c :: r.1, r.2)

/-- The byte sequence after replacing each CR LF pair by a single LF —
the sequence fb_fetch is meant to deliver. -/
def crlfTranslate : List Nat → List Nat
  | [] => []
  | [c] => [c]
  | c1 :: c2 :: rest =>
    if c1 = 13 ∧ c2 = 10 then 10 :: crlfTranslate rest
    else c1 :: crlfTranslate (c2 :: rest)

/-- The bytes not yet delivered: the unconsumed part of the buffer
followed by the unread part of the file. -/
def fbPending (fb : FileBuffer) : List Nat :=
  (List.range (fb.lastPos - fb.currentBufferPos)).map
    (fun i => fb.buf (fb.currentBufferPos + i)) ++ fb.fileData.drop fb.filePos

/-- State set up by stream_file (stream_file.c lines 294-349): empty
buffer, line number 1, not at end of file. -/
def initFileBuffer (content : List Nat) (bufferSize : Nat) : FileBuffer :=
  ⟨content, 0, fun _ => 0, 0, 0, false, 1, bufferSize⟩

/-- Well-formedness of a file_buffer state: the cursor bounds, the buffer
bound, the file cursor bound, and reached_eof meaning the file is fully
read into the buffer. -/
def FbInv (fb : FileBuffer) : Prop :=
  fb.currentBufferPos ≤ fb.lastPos ∧ fb.lastPos ≤ fb.bufferSize ∧
    fb.filePos ≤ fb.fileData.length ∧
    (fb.reachedEof = true → fb.filePos = fb.fileData.length)

/-- Invariant carried through one tokenizer loop iteration: in every
non-failing outcome the field count equals the number of fields entries
written. -/
def iterNfOK : TokIterOut → Prop
  | .cont l2 => l2.numFields = l2.fields.length
  | .done _ l2 => l2.numFields = l2.fields.length
  | .fail => True

/-!
Supporting lemmas: character classes and digit strings.
-/

theorem isDigit_not_space {c : Nat} (h : isDigitC c = true) : isUniSpace c = false := by
  simp only [isDigitC, decide_eq_true_eq] at h
  simp only [isUniSpace, decide_eq_false_iff_not]
  omega

theorem isDigit_ne_45 {c : Nat} (h : isDigitC c = true) : c ≠ 45 := by
  simp only [isDigitC, decide_eq_true_eq] at h
  omega

theorem isDigit_ne_43 {c : Nat} (h : isDigitC c = true) : c ≠ 43 := by
  simp only [isDigitC, decide_eq_true_eq] at h
  omega

theorem dropWhile_space_self {l : List Nat} (h : isUniSpace (l.headD 0) = false) :
    l.dropWhile isUniSpace = l := by
  cases l with
  | nil => rfl
  | cons c t =>
    simp only [List.headD] at h
    simp [List.dropWhile_cons, h]

theorem accDigits_cons (acc : Int) (c : Nat) (ds : List Nat) :
    accDigits acc (c :: ds) = accDigits (acc * 10 + ((c : Int) - 48)) ds := rfl

theorem accDigits_append_one (acc : Int) (ds : List Nat) (c : Nat) :
    accDigits acc (ds ++ [c]) = accDigits acc ds * 10 + ((c : Int) - 48) := by
  simp [accDigits, List.foldl_append]

theorem accDigits_shift (ds : List Nat) :
    ∀ acc : Int, accDigits acc ds = acc * 10 ^ ds.length + accDigits 0 ds := by
  induction ds with
  | nil => intro acc; simp [accDigits]
  | cons c t ih =>
    intro acc
    rw [accDigits_cons, ih, accDigits_cons 0, ih ((0 : Int) * 10 + ((c : Int) - 48))]
    simp only [List.length_cons]
    ring

theorem accDigits_le (ds : List Nat) (hd : ∀ c ∈ ds, isDigitC c = true) :
    ∀ acc : Int, 0 ≤ acc → acc ≤ accDigits acc ds := by
  induction ds with
  | nil => intro acc _; simp [accDigits]
  | cons c t ih =>
    intro acc hacc
    have hc : isDigitC c = true := hd c (List.mem_cons_self _ _)
    simp only [isDigitC, decide_eq_true_eq] at hc
    have hstep : acc ≤ acc * 10 + ((c : Int) - 48) := by
      have : (48 : Int) ≤ (c : Int) := by exact_mod_cast hc.1
      nlinarith
    calc acc ≤ acc * 10 + ((c : Int) - 48) := hstep
      _ ≤ accDigits (acc * 10 + ((c : Int) - 48)) t := by
          apply ih (fun d hdm => hd d (List.mem_cons_of_mem _ hdm))
          have : (48 : Int) ≤ (c : Int) := by exact_mod_cast hc.1
          nlinarith

theorem natDigitsF_congr : ∀ f g n : Nat, n ≤ f → n ≤ g → natDigitsF f n = natDigitsF g n := by
  intro f
  induction f with
  | zero =>
    intro g n hf _
    interval_cases n
    cases g with
    | zero => rfl
    | succ g => simp [natDigitsF]
  | succ f ih =>
    intro g n hf hg
    cases g with
    | zero =>
      interval_cases n
      simp [natDigitsF]
    | succ g =>
      by_cases hn : n < 10
      · simp [natDigitsF, hn]
      · have h1 : n / 10 ≤ f := by
          have := Nat.div_lt_self (by omega : 0 < n) (by omega : 1 < 10)
          omega
        have h2 : n / 10 ≤ g := by
          have := Nat.div_lt_self (by omega : 0 < n) (by omega : 1 < 10)
          omega
        simp only [natDigitsF, hn, if_false]
        rw [ih g (n / 10) h1 h2]

theorem natDigits_low {n : Nat} (h : n < 10) : natDigits n = [48 + n] := by
  cases n with
  | zero => rfl
  | succ m => simp [natDigits, natDigitsF, h]

theorem natDigits_high {n : Nat} (h : 10 ≤ n) :
    natDigits n = natDigits (n / 10) ++ [48 + n % 10] := by
  obtain ⟨f, rfl⟩ : ∃ f, n = f + 1 := ⟨n - 1, by omega⟩
  have hlt : ¬(f + 1 < 10) := by omega
  show natDigitsF (f + 1) (f + 1) = _
  simp only [natDigitsF, hlt, if_false]
  have h1 : (f + 1) / 10 ≤ f := by
    have := Nat.div_lt_self (by omega : 0 < f + 1) (by omega : 1 < 10)
    omega
  rw [natDigitsF_congr f ((f + 1) / 10) ((f + 1) / 10) h1 le_rfl]
  rfl

theorem natDigits_all (n : Nat) : ∀ c ∈ natDigits n, isDigitC c = true := by
  induction n using Nat.strong_induction_on with
  | _ n ih =>
    by_cases h : n < 10
    · rw [natDigits_low h]
      intro c hc
      simp only [List.mem_singleton] at hc
      subst hc
      simp only [isDigitC, decide_eq_true_eq]
      omega
    · rw [natDigits_high (by omega)]
      intro c hc
      rcases List.mem_append.mp hc with h1 | h2
      · exact ih (n / 10) (Nat.div_lt_self (by omega) (by omega)) c h1
      · simp only [List.mem_singleton] at h2
        subst h2
        have := Nat.mod_lt n (by omega : 0 < 10)
        simp only [isDigitC, decide_eq_true_eq]
        omega

theorem natDigits_ne_nil (n : Nat) : natDigits n ≠ [] := by
  by_cases h : n < 10
  · rw [natDigits_low h]; simp
  · rw [natDigits_high (by omega)]; simp

theorem accDigits_natDigits (n : Nat) : accDigits 0 (natDigits n) = (n : Int) := by
  induction n using Nat.strong_induction_on with
  | _ n ih =>
    by_cases h : n < 10
    · rw [natDigits_low h]
      show (0 : Int) * 10 + (((48 + n : Nat) : Int) - 48) = (n : Int)
      push_cast
      ring
    · rw [natDigits_high (by omega), accDigits_append_one,
        ih (n / 10) (Nat.div_lt_self (by omega) (by omega))]
      have := Nat.div_add_mod n 10
      push_cast
      omega

theorem natDigits_headD_digit (n : Nat) : isDigitC ((natDigits n).headD 0) = true := by
  cases hh : natDigits n with
  | nil => exact absurd hh (natDigits_ne_nil n)
  | cons c t =>
    have := natDigits_all n c (by rw [hh]; exact List.mem_cons_self _ _)
    simpa using this

/-!
Supporting lemmas: the digit-processing loops and the pre-max test.
-/

theorem posLoop_complete (mx : Int) (hmx : 0 ≤ mx) (ds : List Nat)
    (hd : ∀ c ∈ ds, isDigitC c = true) :
    ∀ acc : Int, 0 ≤ acc → accDigits acc ds ≤ mx →
      posDigitLoop (mx.tdiv 10) (mx.tmod 10) acc ds = some (accDigits acc ds, []) := by
  have hdm := Int.tdiv_add_tmod mx 10
  have hm0 : 0 ≤ mx.tmod 10 := Int.tmod_nonneg 10 hmx
  have hm1 : mx.tmod 10 < 10 := Int.tmod_lt_of_pos mx (by omega)
  induction ds with
  | nil => intro acc _ _; simp [posDigitLoop, accDigits]
  | cons c t ih =>
    intro acc hacc hle
    have hc : isDigitC c = true := hd c (List.mem_cons_self _ _)
    have hc48 : 48 ≤ c ∧ c ≤ 57 := by
      simpa [isDigitC] using hc
    have hcInt : (48 : Int) ≤ (c : Int) ∧ (c : Int) ≤ 57 := by
      exact ⟨by exact_mod_cast hc48.1, by exact_mod_cast hc48.2⟩
    rw [accDigits_cons] at hle ⊢
    have hacc2 : 0 ≤ acc * 10 + ((c : Int) - 48) := by nlinarith [hcInt.1]
    have hrest : acc * 10 + ((c : Int) - 48) ≤ accDigits (acc * 10 + ((c : Int) - 48)) t :=
      accDigits_le t (fun d hdm2 => hd d (List.mem_cons_of_mem _ hdm2)) _ hacc2
    have hbound : acc * 10 + ((c : Int) - 48) ≤ mx := le_trans hrest hle
    have hguard : acc < mx.tdiv 10 ∨ (acc = mx.tdiv 10 ∧ (c : Int) - 48 ≤ mx.tmod 10) := by
      rcases lt_trichotomy acc (mx.tdiv 10) with h | h | h
      · exact Or.inl h
      · exact Or.inr ⟨h, by omega⟩
      · exfalso; omega
    simp only [posDigitLoop, hc, if_true, hguard, if_pos]
    exact ih (fun d hdm2 => hd d (List.mem_cons_of_mem _ hdm2)) _ hacc2 hle

theorem posLoop_sound (mx : Int) (hmx : 0 ≤ mx) (ds : List Nat)
    (hd : ∀ c ∈ ds, isDigitC c = true) :
    ∀ acc : Int, 0 ≤ acc → acc ≤ mx → ∀ r rest,
      posDigitLoop (mx.tdiv 10) (mx.tmod 10) acc ds = some (r, rest) →
      rest = [] ∧ r = accDigits acc ds ∧ 0 ≤ r ∧ r ≤ mx := by
  have hdm := Int.tdiv_add_tmod mx 10
  have hm0 : 0 ≤ mx.tmod 10 := Int.tmod_nonneg 10 hmx
  have hm1 : mx.tmod 10 < 10 := Int.tmod_lt_of_pos mx (by omega)
  induction ds with
  | nil =>
    intro acc hacc hle r rest h
    simp only [posDigitLoop, Option.some.injEq, Prod.mk.injEq] at h
    exact ⟨h.2.symm, by simp [accDigits, ← h.1], by omega, by omega⟩
  | cons c t ih =>
    intro acc hacc hle r rest h
    have hc : isDigitC c = true := hd c (List.mem_cons_self _ _)
    have hc48 : 48 ≤ c ∧ c ≤ 57 := by simpa [isDigitC] using hc
    have hcInt : (48 : Int) ≤ (c : Int) ∧ (c : Int) ≤ 57 := by
      exact ⟨by exact_mod_cast hc48.1, by exact_mod_cast hc48.2⟩
    simp only [posDigitLoop, hc, if_true] at h
    by_cases hguard : acc < mx.tdiv 10 ∨ (acc = mx.tdiv 10 ∧ (c : Int) - 48 ≤ mx.tmod 10)
    · rw [if_pos hguard] at h
      have hacc2 : 0 ≤ acc * 10 + ((c : Int) - 48) := by nlinarith [hcInt.1]
      have hle2 : acc * 10 + ((c : Int) - 48) ≤ mx := by
        rcases hguard with hg | ⟨hg1, hg2⟩
        · nlinarith [hcInt.2]
        · omega
      obtain ⟨h1, h2, h3, h4⟩ :=
        ih (fun d hdm2 => hd d (List.mem_cons_of_mem _ hdm2)) _ hacc2 hle2 r rest h
      exact ⟨h1, by rw [accDigits_cons]; exact h2, h3, h4⟩
    · rw [if_neg hguard] at h
      exact absurd h (by simp)

theorem negLoop_eq_posLoop (mn : Int) (ds : List Nat) :
    ∀ acc : Int,
      negDigitLoop (mn.tdiv 10) (-(mn.tmod 10)) acc ds =
        Option.map (fun p => (-p.1, p.2))
          (posDigitLoop ((-mn).tdiv 10) ((-mn).tmod 10) (-acc) ds) := by
  have htd : (-mn).tdiv 10 = -(mn.tdiv 10) := Int.neg_tdiv mn 10
  have htm : (-mn).tmod 10 = -(mn.tmod 10) := by
    rw [Int.tmod_def, Int.tmod_def, Int.neg_tdiv]
    ring
  induction ds with
  | nil => intro acc; simp [negDigitLoop, posDigitLoop]
  | cons c t ih =>
    intro acc
    simp only [negDigitLoop, posDigitLoop, htd, htm]
    by_cases hc : isDigitC c = true
    · simp only [hc, if_true]
      by_cases hguard : acc > mn.tdiv 10 ∨ (acc = mn.tdiv 10 ∧ (c : Int) - 48 ≤ -(mn.tmod 10))
      · have hguard2 : -acc < -(mn.tdiv 10) ∨
            (-acc = -(mn.tdiv 10) ∧ (c : Int) - 48 ≤ -(mn.tmod 10)) := by
          rcases hguard with h | ⟨h1, h2⟩
          · exact Or.inl (by omega)
          · exact Or.inr ⟨by omega, h2⟩
        rw [if_pos hguard, if_pos hguard2]
        have heq : -(acc * 10 - ((c : Int) - 48)) = -acc * 10 + ((c : Int) - 48) := by ring
        rw [ih, heq, htd, htm]
      · have hguard2 : ¬(-acc < -(mn.tdiv 10) ∨
            (-acc = -(mn.tdiv 10) ∧ (c : Int) - 48 ≤ -(mn.tmod 10))) := by
          intro hcon
          apply hguard
          rcases hcon with h | ⟨h1, h2⟩
          · exact Or.inl (by omega)
          · exact Or.inr ⟨by omega, h2⟩
        rw [if_neg hguard, if_neg hguard2]
        rfl
    · simp only [Bool.not_eq_true] at hc
      simp [hc]

theorem str_to_int64_digitHead (t : List Nat) (mn mx : Int)
    (h : isDigitC (t.headD 0) = true) :
    str_to_int64 t mn mx =
      match posDigitLoop (mx.tdiv 10) (mx.tmod 10) 0 t with
      | some pr => if pr.2.dropWhile isUniSpace = [] then some pr.1 else none
      | none => none := by
  have hns := isDigit_not_space h
  have h45 := isDigit_ne_45 h
  have h43 := isDigit_ne_43 h
  simp only [str_to_int64, dropWhile_space_self hns]
  rw [if_neg (show ¬(t.headD 0 = 45 ∨ t.headD 0 = 43) from by
    intro hc
    rcases hc with hc | hc
    · exact h45 hc
    · exact h43 hc)]
  rw [if_pos h, if_neg h45]
  cases posDigitLoop (mx.tdiv 10) (mx.tmod 10) 0 t with
  | none => rfl
  | some pr => cases pr with | mk a b => rfl

theorem str_to_int64_negHead (t : List Nat) (mn mx : Int)
    (h : isDigitC (t.headD 0) = true) :
    str_to_int64 (45 :: t) mn mx =
      match negDigitLoop (mn.tdiv 10) (-(mn.tmod 10)) 0 t with
      | some pr => if pr.2.dropWhile isUniSpace = [] then some pr.1 else none
      | none => none := by
  have hns : isUniSpace ((45 :: t).headD 0) = false := rfl
  simp only [str_to_int64, dropWhile_space_self hns]
  have hh : (45 :: t).headD 0 = 45 := rfl
  rw [hh, if_pos (Or.inl rfl), if_pos rfl]
  simp only [List.tail_cons]
  rw [if_pos h]
  cases negDigitLoop (mn.tdiv 10) (-(mn.tmod 10)) 0 t with
  | none => rfl
  | some pr => cases pr with | mk a b => rfl

theorem str_to_uint64_digitHead (t : List Nat) (mx : Int)
    (h : isDigitC (t.headD 0) = true) :
    str_to_uint64 t mx =
      match posDigitLoop (mx.tdiv 10) (mx.tmod 10) 0 t with
      | some pr => if pr.2.dropWhile isUniSpace = [] then some pr.1 else none
      | none => none := by
  have hns := isDigit_not_space h
  have h45 := isDigit_ne_45 h
  have h43 := isDigit_ne_43 h
  simp only [str_to_uint64, dropWhile_space_self hns]
  rw [if_neg h45, if_neg h43, if_pos h]
  cases posDigitLoop (mx.tdiv 10) (mx.tmod 10) 0 t with
  | none => rfl
  | some pr => cases pr with | mk a b => rfl

theorem str_to_uint64_minusHead (t : List Nat) (mx : Int) :
    str_to_uint64 (45 :: t) mx = none := by
  have hns : isUniSpace ((45 :: t).headD 0) = false := rfl
  simp only [str_to_uint64, dropWhile_space_self hns]
  have hh : (45 :: t).headD 0 = 45 := rfl
  rw [hh, if_pos rfl]

theorem strToInt64_roundtrip_nonneg (mn mx : Int) (hmx : 0 ≤ mx) (n : Nat)
    (hle : (n : Int) ≤ mx) : str_to_int64 (natDigits n) mn mx = some (n : Int) := by
  rw [str_to_int64_digitHead _ _ _ (natDigits_headD_digit n)]
  rw [posLoop_complete mx hmx _ (natDigits_all n) 0 le_rfl
    (by rw [accDigits_natDigits]; exact hle)]
  simp [accDigits_natDigits]

theorem strToInt64_reject_pos (mn mx : Int) (hmx : 0 ≤ mx) (n : Nat)
    (hgt : mx < (n : Int)) : str_to_int64 (natDigits n) mn mx = none := by
  rw [str_to_int64_digitHead _ _ _ (natDigits_headD_digit n)]
  cases hpl : posDigitLoop (mx.tdiv 10) (mx.tmod 10) 0 (natDigits n) with
  | none => rfl
  | some pr =>
    obtain ⟨hrest, hval, hnn, hub⟩ :=
      posLoop_sound mx hmx _ (natDigits_all n) 0 le_rfl hmx pr.1 pr.2 (by rw [hpl])
    rw [accDigits_natDigits] at hval
    exfalso
    omega

theorem strToInt64_roundtrip_negv (mn mx : Int) (hmn : mn ≤ 0) (n : Nat)
    (hle : (n : Int) ≤ -mn) :
    str_to_int64 (45 :: natDigits n) mn mx = some (-(n : Int)) := by
  rw [str_to_int64_negHead _ _ _ (natDigits_headD_digit n)]
  rw [negLoop_eq_posLoop]
  rw [neg_zero]
  rw [posLoop_complete (-mn) (by omega) _ (natDigits_all n) 0 le_rfl
    (by rw [accDigits_natDigits]; exact hle)]
  simp [accDigits_natDigits]

theorem strToInt64_reject_negv (mn mx : Int) (hmn : mn ≤ 0) (n : Nat)
    (hgt : -mn < (n : Int)) : str_to_int64 (45 :: natDigits n) mn mx = none := by
  rw [str_to_int64_negHead _ _ _ (natDigits_headD_digit n)]
  rw [negLoop_eq_posLoop, neg_zero]
  cases hpl : posDigitLoop ((-mn).tdiv 10) ((-mn).tmod 10) 0 (natDigits n) with
  | none => rfl
  | some pr =>
    obtain ⟨hrest, hval, hnn, hub⟩ :=
      posLoop_sound (-mn) (by omega) _ (natDigits_all n) 0 le_rfl (by omega)
        pr.1 pr.2 (by rw [hpl])
    rw [accDigits_natDigits] at hval
    exfalso
    omega

theorem strToUint64_roundtrip (mx : Int) (hmx : 0 ≤ mx) (n : Nat)
    (hle : (n : Int) ≤ mx) : str_to_uint64 (natDigits n) mx = some (n : Int) := by
  rw [str_to_uint64_digitHead _ _ (natDigits_headD_digit n)]
  rw [posLoop_complete mx hmx _ (natDigits_all n) 0 le_rfl
    (by rw [accDigits_natDigits]; exact hle)]
  simp [accDigits_natDigits]

theorem strToUint64_reject (mx : Int) (hmx : 0 ≤ mx) (n : Nat)
    (hgt : mx < (n : Int)) : str_to_uint64 (natDigits n) mx = none := by
  rw [str_to_uint64_digitHead _ _ (natDigits_headD_digit n)]
  cases hpl : posDigitLoop (mx.tdiv 10) (mx.tmod 10) 0 (natDigits n) with
  | none => rfl
  | some pr =>
    obtain ⟨hrest, hval, hnn, hub⟩ :=
      posLoop_sound mx hmx _ (natDigits_all n) 0 le_rfl hmx pr.1 pr.2 (by rw [hpl])
    rw [accDigits_natDigits] at hval
    exfalso
    omega

/-- C2: for every integer width with bounds [min, max] (so min ≤ 0 ≤ max),
str_to_int64 parses the canonical decimal token of any value inside the
bounds to exactly that value, and rejects the canonical token of any value
outside the bounds (in particular max + 1) — the rejection being produced
by the pre-max/pre-min test, which is the only failure site of the digit
loop; the unsigned variant str_to_uint64 does the same against [0, max]
and rejects any token with a leading minus sign. -/
theorem claim_C2_integer_parse_bounds (intMin intMax uintMax : Int)
    (hmin : intMin ≤ 0) (hmax : 0 ≤ intMax) (humax : 0 ≤ uintMax) (v w : Int) :
    (intMin ≤ v → v ≤ intMax → str_to_int64 (decTok v) intMin intMax = some v) ∧
    (v < intMin ∨ intMax < v → str_to_int64 (decTok v) intMin intMax = none) ∧
    (0 ≤ w → w ≤ uintMax → str_to_uint64 (decTok w) uintMax = some w) ∧
    (w < 0 ∨ uintMax < w → str_to_uint64 (decTok w) uintMax = none) ∧
    (∀ t : List Nat, str_to_uint64 (45 :: t) uintMax = none) := by
  refine ⟨?_, ?_, ?_, ?_, fun t => str_to_uint64_minusHead t uintMax⟩
  · intro h1 h2
    by_cases hv : v < 0
    · simp only [decTok, if_pos hv]
      rw [strToInt64_roundtrip_negv intMin intMax hmin v.natAbs (by omega)]
      congr 1
      omega
    · simp only [decTok, if_neg hv]
      rw [strToInt64_roundtrip_nonneg intMin intMax hmax v.natAbs (by omega)]
      congr 1
      omega
  · intro h
    rcases h with h | h
    · have hv : v < 0 := by omega
      simp only [decTok, if_pos hv]
      exact strToInt64_reject_negv intMin intMax hmin v.natAbs (by omega)
    · have hv : ¬v < 0 := by omega
      simp only [decTok, if_neg hv]
      exact strToInt64_reject_pos intMin intMax hmax v.natAbs (by omega)
  · intro h1 h2
    have hv : ¬w < 0 := by omega
    simp only [decTok, if_neg hv]
    rw [strToUint64_roundtrip uintMax humax w.natAbs (by omega)]
    congr 1
    omega
  · intro h
    rcases h with h | h
    · simp only [decTok, if_pos h]
      exact str_to_uint64_minusHead _ _
    · have hv : ¬w < 0 := by omega
      simp only [decTok, if_neg hv]
      exact strToUint64_reject uintMax humax w.natAbs (by omega)

/-- Witness for C2 at the int8 and uint8 bounds: 127 round-trips, 128 and
-129 are rejected, 255 round-trips on the unsigned side, and a token with
a leading minus sign is rejected by the unsigned parser. -/
theorem claim_C2_integer_parse_bounds_witness :
    ((-128 : Int) ≤ 0 ∧ (0 : Int) ≤ 127 ∧ (0 : Int) ≤ 255) ∧
    str_to_int64 (decTok 127) (-128) 127 = some 127 ∧
    str_to_int64 (decTok 128) (-128) 127 = none ∧
    str_to_int64 (decTok (-129)) (-128) 127 = none ∧
    str_to_uint64 (decTok 255) 255 = some 255 ∧
    str_to_uint64 (45 :: [49]) 255 = none := by
  refine ⟨by norm_num, ?_, ?_, ?_, ?_, ?_⟩
  · exact (claim_C2_integer_parse_bounds (-128) 127 255 (by norm_num) (by norm_num)
      (by norm_num) 127 0).1 (by norm_num) (by norm_num)
  · exact (claim_C2_integer_parse_bounds (-128) 127 255 (by norm_num) (by norm_num)
      (by norm_num) 128 0).2.1 (Or.inr (by norm_num))
  · exact (claim_C2_integer_parse_bounds (-128) 127 255 (by norm_num) (by norm_num)
      (by norm_num) (-129) 0).2.1 (Or.inl (by norm_num))
  · exact (claim_C2_integer_parse_bounds (-128) 127 255 (by norm_num) (by norm_num)
      (by norm_num) 0 255).2.2.1 (by norm_num) (by norm_num)
  · exact (claim_C2_integer_parse_bounds (-128) 127 255 (by norm_num) (by norm_num)
      (by norm_num) 0 0).2.2.2.2 [49]

/-- C5: for every integer-typed conversion, when the integer parse of the
token fails and allow_float_for_int is enabled, the stored value is the
float parse of the same token truncated toward zero, and the conversion
fails exactly when to_double fails end-to-end; with the flag disabled the
integer failure is final.  Concretely, "1e1" converts to 10 under the
flag and fails without it, and "4.7" / "-4.7" truncate toward zero to
4 / -4. -/
theorem claim_C5_allow_float_for_int (intMin intMax uintMax : Int) (item : List Nat) :
    (str_to_int64 item intMin intMax = none →
      to_intw intMin intMax item true = (to_double item).map pyFloatTrunc ∧
      (to_intw intMin intMax item true = none ↔ to_double item = none) ∧
      to_intw intMin intMax item false = none) ∧
    (str_to_uint64 item uintMax = none →
      to_uintw uintMax item true = (to_double item).map pyFloatTrunc ∧
      (to_uintw uintMax item true = none ↔ to_double item = none) ∧
      to_uintw uintMax item false = none) ∧
    to_int8 [49, 101, 49] true = some 10 ∧
    to_int8 [49, 101, 49] false = none ∧
    to_int8 [52, 46, 55] true = some 4 ∧
    to_int8 [45, 52, 46, 55] true = some (-4) ∧
    to_uint8 [49, 101, 49] true = some 10 := by
  refine ⟨?_, ?_, by decide, by decide, by decide, by decide, by decide⟩
  · intro h
    simp only [to_intw, h]
    cases to_double item with
    | none => simp
    | some v => simp
  · intro h
    simp only [to_uintw, h]
    cases to_double item with
    | none => simp
    | some v => simp

/-- Witness for C5 on the token "1e1" with the int8 and uint8 bounds: the
integer parse fails, and the conversions equal the truncated float parse. -/
theorem claim_C5_allow_float_for_int_witness :
    str_to_int64 [49, 101, 49] (-128) 127 = none ∧
    str_to_uint64 [49, 101, 49] 255 = none ∧
    to_intw (-128) 127 [49, 101, 49] true =
      (to_double [49, 101, 49]).map pyFloatTrunc ∧
    to_intw (-128) 127 [49, 101, 49] false = none ∧
    to_uintw 255 [49, 101, 49] true = (to_double [49, 101, 49]).map pyFloatTrunc := by
  have h := claim_C5_allow_float_for_int (-128) 127 255 [49, 101, 49]
  have h1 : str_to_int64 [49, 101, 49] (-128) 127 = none := by decide
  have h2 : str_to_uint64 [49, 101, 49] 255 = none := by decide
  exact ⟨h1, h2, (h.1 h1).1, (h.1 h1).2.2, (h.2.1 h2).1⟩

/-- C6 (code bug): to_double is documented to succeed only when it uses
every character of the token, and the spec says any token holding a code
point at or above 128 must fail; but on the token "1.5é" (0xE9 = 233) the
implementation returns 1.5 successfully — the ASCII copy stops at the é,
and the end-rewind arithmetic end = end - (c - end_parsed) does not
account for the dropped characters, so the full-consumption check passes
without the é ever being examined.  This theorem kernel-evaluates the
embedded code at the failing input (and shows to_float behaves the same
way). -/
theorem claim_C6_nonascii_accepted :
    (∃ c ∈ ([49, 46, 53, 233] : List Nat), 128 ≤ c) ∧
    to_double [49, 46, 53, 233] = some (.num 15 (-1)) ∧
    to_float [49, 46, 53, 233] = some (.num 15 (-1)) ∧
    to_double [49, 46, 53] = some (.num 15 (-1)) := by
  refine ⟨⟨233, by decide, by decide⟩, by decide, by decide, by decide⟩

/-- C8 counterexample: the claim says the default configuration has
ignore_leading_whitespace = false, but both module entry points assign
ignore_leading_spaces = true. -/
theorem claim_C8_counterexample :
    default_parser_config.ignoreLeadingSpaces ≠ false := by decide

/-- C8 amended: when the caller supplies no dialect overrides, the
configuration is delimiter ',', comment '#' (single byte), quote a double
quote, decimal '.', sci 'E', allow_embedded_newline = true,
ignore_leading_spaces = true, ignore_trailing_spaces = true and
strict_num_fields = false; no imaginary-unit or allow_float_for_int field
is assigned by these entry points. -/
theorem claim_C8_defaults_amended :
    default_parser_config.delimiter = 44 ∧
    default_parser_config.comment = 35 ∧
    default_parser_config.quote = 34 ∧
    default_parser_config.decimal = 46 ∧
    default_parser_config.sci = 69 ∧
    default_parser_config.allowEmbeddedNewline = true ∧
    default_parser_config.ignoreLeadingSpaces = true ∧
    default_parser_config.ignoreTrailingSpaces = true ∧
    default_parser_config.strictNumFields = false := by decide

/-!
Supporting lemmas: the converter table.
-/

theorem createConvLoop_getD (cs : List (Int × Nat)) (m : Int) :
    ∀ count j0 j : Nat, j < count →
      (createConvLoop cs none m j0 count).getD j none =
        match lookupConv cs ((j0 + j : Nat) : Int) with
        | some f => some f
        | none => lookupConv cs (((j0 + j : Nat) : Int) - m) := by
  intro count
  induction count with
  | zero => intro j0 j h; omega
  | succ c ih =>
    intro j0 j h
    cases j with
    | zero =>
      simp only [createConvLoop, List.getD, Nat.add_zero]
      cases lookupConv cs ((j0 : Nat) : Int) with
      | none => rfl
      | some f => rfl
    | succ j' =>
      have := ih (j0 + 1) j' (by omega)
      simp only [createConvLoop, List.getD_cons_succ]
      rw [this]
      have harith : j0 + 1 + j' = j0 + (j' + 1) := by omega
      rw [harith]

theorem convLoop_singleton_none (k : Int) (f : Nat) (m : Int) :
    ∀ count j0 : Nat,
      (∀ j : Nat, j0 ≤ j → j < j0 + count → k ≠ (j : Int) ∧ k ≠ (j : Int) - m) →
      createConvLoop [(k, f)] none m j0 count = List.replicate count none := by
  intro count
  induction count with
  | zero => intro j0 _; rfl
  | succ c ih =>
    intro j0 h
    obtain ⟨h1, h2⟩ := h j0 le_rfl (by omega)
    simp only [createConvLoop, List.replicate]
    have hm : ¬k = ((j0 : Nat) : Int) - m := by omega
    have hhead : (match lookupConv [(k, f)] ((j0 : Nat) : Int) with
        | some f => some f
        | none => lookupConv [(k, f)] (((j0 : Nat) : Int) - m)) = none := by
      simp only [lookupConv, if_neg h1, if_neg hm]
    rw [hhead, ih (j0 + 1) (fun j hj1 hj2 => h j (by omega) (by omega))]

/-- C9 counterexample: a converters mapping whose only key, 5, lies
outside [-2, 2) for two-field rows is silently ignored — create_conv_funcs
binds no converter and the read completes, returning the full table — so
the claimed fatal errors do not occur. -/
theorem claim_C9_counterexample :
    create_conv_funcs [(5, 7)] none 2 2 = [none, none] ∧
    read_rows [[[49], [50]], [[51], [52]]] none (some [(5, 7)]) (fun _ _ => none)
      (fun t => str_to_int64 t (-2147483648) 2147483647) = .ok [[1, 2], [3, 4]] := by
  exact ⟨rfl, rfl⟩

/-- C9 amended: with usecols absent, create_conv_funcs binds output column
j (for j < n, with n the current number of fields) to converters[j] when
that key is present, else to converters[j - n] (the negative alias), else
to nothing; a key outside [-n, n) can match neither lookup and is silently
dropped — there is no range check, no error, and no callability check (the
C function fails only on out-of-memory). -/
theorem claim_C9_conv_funcs_amended (cs : List (Int × Nat)) (n : Nat) :
    (∀ j : Nat, j < n →
      (create_conv_funcs cs none n (n : Int)).getD j none =
        match lookupConv cs (j : Int) with
        | some f => some f
        | none => lookupConv cs ((j : Int) - (n : Int))) ∧
    (∀ (k : Int) (f : Nat), ((n : Int) ≤ k ∨ k < -(n : Int)) →
      create_conv_funcs [(k, f)] none n (n : Int) = List.replicate n none) := by
  constructor
  · intro j hj
    have := createConvLoop_getD cs (n : Int) n 0 j hj
    simpa using this
  · intro k f hk
    apply convLoop_singleton_none
    intro j hj1 hj2
    constructor
    · rcases hk with h | h <;> omega
    · rcases hk with h | h <;> omega

/-- Witness for C9 amended at n = 2: the key -1 binds through the negative
alias to output column 1, and the out-of-range key 5 binds nothing. -/
theorem claim_C9_conv_funcs_amended_witness :
    (create_conv_funcs [(-1, 9)] none 2 2).getD 1 none = some 9 ∧
    create_conv_funcs [(5, 7)] none 2 2 = List.replicate 2 none := by
  constructor
  · have h := (claim_C9_conv_funcs_amended [(-1, 9)] 2).1 1 (by norm_num)
    simpa using h
  · exact (claim_C9_conv_funcs_amended [(5, 7)] 2).2 5 7 (Or.inl (by norm_num))

/-!
Supporting lemmas: the read_rows loop.
-/

theorem getD_replicate_none :
    ∀ n j : Nat, (List.replicate n (none : Option Nat)).getD j none = none := by
  intro n
  induction n with
  | zero => intro j; cases j <;> rfl
  | succ n ih =>
    intro j
    cases j with
    | zero => rfl
    | succ j => simp only [List.replicate, List.getD_cons_succ]; exact ih j

theorem resolveCol_err_type (usn : Option (List Int)) (row : List (List Nat))
    (i0 j : Nat) (e : ReadErr) (h : resolveCol usn row i0 j = .error e) :
    e.errorType = .invalidColumnIndex := by
  cases usn with
  | none => exact absurd h (by simp [resolveCol])
  | some us =>
    simp only [resolveCol] at h
    split at h <;> split at h <;> first | (cases h; rfl) | cases h

theorem convertCell_err_type (conv : List Nat → Option Int)
    (cc : Nat → List Nat → Option Int) (cf : Option Nat) (row : List (List Nat))
    (k : Int) (i0 : Nat) (e : ReadErr) (h : convertCell conv cc cf row k i0 = .error e) :
    e.errorType = .converterFailed ∨ e.errorType = .badField := by
  cases cf with
  | some f =>
    simp only [convertCell] at h
    cases hc : cc f (row.getD k.toNat []) with
    | none => simp only [hc] at h; cases h; exact Or.inl rfl
    | some v => simp only [hc] at h; cases h
  | none =>
    simp only [convertCell] at h
    split at h
    · cases hc : conv (row.getD k.toNat []) with
      | none => simp only [hc] at h; cases h; exact Or.inr rfl
      | some v => simp only [hc] at h; cases h
    · cases h


theorem processRow_ok_nousecols (conv : List Nat → Option Int)
    (cc : Nat → List Nat → Option Int) (n : Nat) (row : List (List Nat)) (i0 : Nat)
    (hconv : ∀ t, (conv t).isSome = true) :
    ∀ count j0 : Nat, j0 + count ≤ row.length →
      ∃ cells, processRow conv cc (List.replicate n none) none row i0 j0 count =
        .ok cells := by
  intro count
  induction count with
  | zero => intro j0 _; exact ⟨[], rfl⟩
  | succ c ih =>
    intro j0 hlen
    obtain ⟨v, hv⟩ := Option.isSome_iff_exists.mp (hconv (row.getD ((j0 : Int)).toNat []))
    obtain ⟨cells, hc⟩ := ih (j0 + 1) (by omega)
    refine ⟨v :: cells, ?_⟩
    have hk : ((j0 : Nat) : Int) < (row.length : Int) := by
      exact_mod_cast (by omega : j0 < row.length)
    have hres : resolveCol none row i0 j0 = .ok ((j0 : Nat) : Int) := rfl
    simp only [processRow, hres, convertCell, getD_replicate_none, if_pos hk, hv, hc]

theorem processRow_err_not_changed (conv : List Nat → Option Int)
    (cc : Nat → List Nat → Option Int) (cf : List (Option Nat))
    (usn : Option (List Int)) (row : List (List Nat)) (i0 : Nat) :
    ∀ count j0 : Nat, ∀ e : ReadErr,
      processRow conv cc cf usn row i0 j0 count = .error e →
      e.errorType ≠ .changedNumberOfFields := by
  intro count
  induction count with
  | zero => intro j0 e h; exact absurd h (by simp [processRow])
  | succ c ih =>
    intro j0 e h
    simp only [processRow] at h
    cases hres : resolveCol usn row i0 j0 with
    | error e1 =>
      simp only [hres] at h
      cases h
      rw [resolveCol_err_type usn row i0 j0 _ hres]
      intro hcon
      cases hcon
    | ok k =>
      simp only [hres] at h
      cases hcc : convertCell conv cc (cf.getD j0 none) row k i0 with
      | error e2 =>
        simp only [hcc] at h
        cases h
        rcases convertCell_err_type conv cc _ row k i0 _ hcc with h2 | h2 <;>
          (rw [h2]; intro hcon; cases hcon)
      | ok v =>
        simp only [hcc] at h
        cases hrec : processRow conv cc cf usn row i0 (j0 + 1) c with
        | error e3 =>
          simp only [hrec] at h
          cases h
          exact ih (j0 + 1) _ hrec
        | ok rest =>
          simp only [hrec] at h
          cases h

theorem readRowsLoop_err_not_changed_usecols (conv : List Nat → Option Int)
    (cc : Nat → List Nat → Option Int) (cf : List (Option Nat)) (us : List Int)
    (nu an : Nat) :
    ∀ (rs : List (List (List Nat))) (i0 : Nat) (e : ReadErr),
      readRowsLoop conv cc cf (some us) nu an rs i0 = .error e →
      e.errorType ≠ .changedNumberOfFields := by
  intro rs
  induction rs with
  | nil => intro i0 e h; exact absurd h (by simp [readRowsLoop])
  | cons row rest ih =>
    intro i0 e h
    simp only [readRowsLoop] at h
    rw [if_neg (by simp)] at h
    cases hpr : processRow conv cc cf (some us) row i0 0 nu with
    | error e1 =>
      simp only [hpr] at h
      cases h
      exact processRow_err_not_changed conv cc cf (some us) row i0 nu 0 _ hpr
    | ok cells =>
      simp only [hpr] at h
      cases hrec : readRowsLoop conv cc cf (some us) nu an rest (i0 + 1) with
      | error e2 =>
        simp only [hrec] at h
        cases h
        exact ih (i0 + 1) _ hrec
      | ok others =>
        simp only [hrec] at h
        cases h

theorem readRowsLoop_mismatch (conv : List Nat → Option Int)
    (cc : Nat → List Nat → Option Int) (n : Nat)
    (hconv : ∀ t, (conv t).isSome = true) :
    ∀ (rs : List (List (List Nat))) (i0 i : Nat),
      firstMismatch n rs = some i →
      readRowsLoop conv cc (List.replicate n none) none n n rs i0 =
        .error ⟨.changedNumberOfFields, ((i0 + i : Nat) : Int),
          ((rs.getD i []).length : Int)⟩ := by
  intro rs
  induction rs with
  | nil => intro i0 i h; exact absurd h (by simp [firstMismatch])
  | cons row rest ih =>
    intro i0 i h
    simp only [firstMismatch] at h
    by_cases hrow : row.length ≠ n
    · rw [if_pos hrow] at h
      cases h
      simp only [readRowsLoop]
      rw [if_pos (show True ∧ n ≠ row.length from ⟨trivial, fun hc => hrow hc.symm⟩)]
      simp
    · rw [if_neg hrow] at h
      push_neg at hrow
      cases hfm : firstMismatch n rest with
      | none => simp [hfm] at h
      | some ii =>
        simp only [hfm, Option.map_some] at h
        cases h
        simp only [readRowsLoop]
        rw [if_neg (by simp [hrow])]
        obtain ⟨cells, hc⟩ :=
          processRow_ok_nousecols conv cc n row i0 hconv n 0 (by omega)
        simp only [hc, ih (i0 + 1) ii hfm]
        have harith : i0 + 1 + ii = i0 + (ii + 1) := by omega
        simp [harith]


/-- C1: with usecols absent, when any later row tokenizes to a different
field count than the first data row, read_rows fails with the
ChangedNumberOfFields error recorded at the first offending row (carrying
the field count found there) and returns no table; and when a usecols
array is supplied, no run of read_rows can produce a
ChangedNumberOfFields error at all.  The hypothesis that the cell
conversion is total isolates the field-count behaviour from unrelated
parse failures. -/
theorem claim_C1_changed_number_of_fields
    (rows : List (List (List Nat))) (r0 : List (List Nat))
    (rest : List (List (List Nat))) (conv : List Nat → Option Int)
    (callConv : Nat → List Nat → Option Int) (i : Nat)
    (hrows : rows = r0 :: rest) (hconv : ∀ t, (conv t).isSome = true)
    (hmm : firstMismatch r0.length rows = some i) :
    read_rows rows none none callConv conv =
      .error ⟨.changedNumberOfFields, (i : Int), ((rows.getD i []).length : Int)⟩ ∧
    (∀ (rows2 : List (List (List Nat))) (us : List Int)
        (convs : Option (List (Int × Nat))) (cc2 : Nat → List Nat → Option Int)
        (cv2 : List Nat → Option Int) (e : ReadErr),
      read_rows rows2 (some us) convs cc2 cv2 = .error e →
      e.errorType ≠ .changedNumberOfFields) := by
  constructor
  · subst hrows
    simp only [read_rows]
    have := readRowsLoop_mismatch conv callConv r0.length hconv (r0 :: rest) 0 i hmm
    simpa using this
  · intro rows2 us convs cc2 cv2 e h
    cases rows2 with
    | nil => exact absurd h (by simp [read_rows])
    | cons q0 qrest =>
      simp only [read_rows] at h
      exact readRowsLoop_err_not_changed_usecols cv2 cc2 _ _ _ _ _ _ _ h

/-- Witness for C1 on the spec scenario "1,2,3" then "1,2": the mismatch
at row 1 yields the ChangedNumberOfFields error with field count 2. -/
theorem claim_C1_changed_number_of_fields_witness :
    firstMismatch 3 [[[49], [50], [51]], [[49], [50]]] = some 1 ∧
    read_rows [[[49], [50], [51]], [[49], [50]]] none none (fun _ _ => none)
      (fun _ => some 0) = .error ⟨.changedNumberOfFields, 1, 2⟩ := by
  constructor
  · rfl
  · exact (claim_C1_changed_number_of_fields
      [[[49], [50], [51]], [[49], [50]]] [[49], [50], [51]] [[[49], [50]]]
      (fun _ => some 0) (fun _ _ => none) 1 rfl (fun _ => rfl) rfl).1

theorem postSwitch_nf (x : TokLoopState) (hx : x.numFields = x.fields.length) :
    (postSwitch x).numFields = (postSwitch x).fields.length := by
  simp only [postSwitch, addFieldStep]
  split
  · simp [hx]
  · exact hx

theorem copyChunk_numFields (x : TokLoopState) (s : List Nat) :
    (copyChunk x s).numFields = x.numFields := by
  by_cases hs : x.started <;> simp [copyChunk, hs]

theorem copyChunk_fields (x : TokLoopState) (s : List Nat) :
    (copyChunk x s).fields = x.fields := by
  by_cases hs : x.started <;> simp [copyChunk, hs]

theorem tokIter_nf (cfg : TokConfig) (l : TokLoopState)
    (h : l.numFields = l.fields.length) : iterNfOK (tokIter cfg l) := by
  have hpost : ∀ x : TokLoopState, x.numFields = x.fields.length →
      iterNfOK (.cont (postSwitch x)) := fun x hx => postSwitch_nf x hx
  have hcopy : ∀ (x : TokLoopState) s, x.numFields = x.fields.length →
      (copyChunk x s).numFields = (copyChunk x s).fields.length := by
    intro x s hx
    rw [copyChunk_numFields, copyChunk_fields]
    exact hx
  unfold tokIter
  dsimp only
  repeat' split
  all_goals first
    | trivial
    | exact h
    | exact hpost _ h
    | exact hpost _ (hcopy _ _ h)


theorem tokLoop_elide (cfg : TokConfig) :
    ∀ (fuel : Nat) (l : TokLoopState), l.numFields = l.fields.length →
      ∀ (res : Nat) (l2 : TokLoopState), tokLoop cfg fuel l = some (res, l2) →
        l2.numFields =
          (if l2.fields.length = 1 ∧ (l2.fields.getD 0 ⟨0, 0, false⟩).length = 0
           then 0 else l2.fields.length) := by
  intro fuel
  induction fuel with
  | zero => intro l _ res l2 h; exact absurd h (by simp [tokLoop])
  | succ f ih =>
    intro l hl res l2 h
    simp only [tokLoop] at h
    have hnf := tokIter_nf cfg l hl
    cases hit : tokIter cfg l with
    | cont l3 =>
      rw [hit] at hnf
      simp only [hit] at h
      exact ih l3 hnf res l2 h
    | done r l3 =>
      rw [hit] at hnf
      simp only [iterNfOK] at hnf
      simp only [hit, Option.some.injEq, Prod.mk.injEq] at h
      obtain ⟨h1, h2⟩ := h
      subst h2
      by_cases hc : l3.numFields = 1 ∧ (l3.fields.getD 0 ⟨0, 0, false⟩).length = 0
      · simp only [elideRow, if_pos hc]
        rw [if_pos (show l3.fields.length = 1 ∧
            (l3.fields.getD 0 ⟨0, 0, false⟩).length = 0 from by
          rw [← hnf]; exact hc)]
        omega
      · simp only [elideRow, if_neg hc]
        rw [if_neg (show ¬(l3.fields.length = 1 ∧
            (l3.fields.getD 0 ⟨0, 0, false⟩).length = 0) from by
          rw [← hnf]; exact hc)]
        exact hnf
    | fail =>
      simp only [hit] at h
      exact Option.noConfusion h

/-- C3: for every tokenize call that completes (returns a row or the
end-of-file result), the reported field count is zero when the row was
assembled from exactly one zero-length field — this is how blank lines are
elided — and otherwise equals the number of fields assembled, all of them
kept intact in the fields index. -/
theorem claim_C3_blank_row_elision (cfg : TokConfig) (fuel : Nat)
    (l : TokLoopState) (res : Nat) (l2 : TokLoopState)
    (h : tokenize cfg fuel l = some (res, l2)) :
    l2.numFields =
      (if l2.fields.length = 1 ∧ (l2.fields.getD 0 ⟨0, 0, false⟩).length = 0
       then 0 else l2.fields.length) := by
  unfold tokenize at h
  exact tokLoop_elide cfg fuel _ rfl res l2 h

/-- Witness for C3: the blank line in "\nX" assembles one zero-length
field and is reported as zero fields; the row "1,2" keeps its two
fields. -/
theorem claim_C3_blank_row_elision_witness :
    ((tokenize csvTokConfig 100 (initTokState [([10, 88, 10], .mayContainNewline)])).map
      (fun p => (p.2.fields.length, (p.2.fields.getD 0 ⟨0, 0, false⟩).length)) =
      some (1, 0)) ∧
    ((tokenize csvTokConfig 100 (initTokState [([10, 88, 10], .mayContainNewline)])).map
      (fun p => p.2.numFields) = some 0) ∧
    ((tokenize csvTokConfig 100 (initTokState [([49, 44, 50, 10, 88, 10], .mayContainNewline)])).map
      (fun p => p.2.numFields) = some 2) := by
  refine ⟨by decide, ?_, ?_⟩
  · cases htok : tokenize csvTokConfig 100
        (initTokState [([10, 88, 10], .mayContainNewline)]) with
    | none => exact absurd htok (by decide)
    | some p =>
      obtain ⟨res, l2⟩ := p
      have heq := claim_C3_blank_row_elision csvTokConfig 100 _ res l2 htok
      have hd : (tokenize csvTokConfig 100
          (initTokState [([10, 88, 10], .mayContainNewline)])).map
            (fun p => (p.2.fields.length, (p.2.fields.getD 0 ⟨0, 0, false⟩).length)) =
          some (1, 0) := by decide
      rw [htok] at hd
      simp only [Option.map_some', Option.some.injEq, Prod.mk.injEq] at hd
      rw [Option.map_some', heq, if_pos hd]
  · cases htok : tokenize csvTokConfig 100
        (initTokState [([49, 44, 50, 10, 88, 10], .mayContainNewline)]) with
    | none => exact absurd htok (by decide)
    | some p =>
      obtain ⟨res, l2⟩ := p
      have heq := claim_C3_blank_row_elision csvTokConfig 100 _ res l2 htok
      have hd : (tokenize csvTokConfig 100
          (initTokState [([49, 44, 50, 10, 88, 10], .mayContainNewline)])).map
            (fun p => (p.2.fields.length, (p.2.fields.getD 0 ⟨0, 0, false⟩).length)) =
          some (2, 1) := by decide
      rw [htok] at hd
      simp only [Option.map_some', Option.some.injEq, Prod.mk.injEq] at hd
      rw [Option.map_some', heq, if_neg (by omega)]
      simp [hd.1]

/-- C4 (code bug): the TOKENIZE_QUOTED_CHECK_DOUBLE_QUOTE case of this
tokenize.c consumes the second quote of a doubled quote without copying a
literal quote into the field — contradicting the claim and the file's own
header comment (which promises that the doc example's third field is 3'2
followed by one quote character).  Kernel evaluation: the row whose first
field is written "a""b" yields the two-character field ab (the doubled
quote contributes nothing, though scanning does stay in quoted mode — the
delimiter inside the quoted second field of the third conjunct is kept
literal), and the header comment's own example row yields the
three-character third field 3'2 with the promised quote missing.  The
other half of the claim does hold: "ABC"DEF tokenizes to the single field
ABCDEF. -/
theorem claim_C4_doubled_quote :
    ((tokenize csvTokConfig 100
        (initTokState [([34, 97, 34, 34, 98, 34, 10, 88, 10], .mayContainNewline)])).map
      (fun p => (p.1, p.2.numFields, p.2.fields, p.2.fieldBuffer)) =
      some (0, 1, [⟨0, 2, true⟩], [97, 98, 0])) ∧
    ((tokenize csvTokConfig 100
        (initTokState [([34, 65, 66, 67, 34, 68, 69, 70, 10, 88, 10], .mayContainNewline)])).map
      (fun p => (p.1, p.2.numFields, p.2.fields, p.2.fieldBuffer)) =
      some (0, 1, [⟨0, 6, true⟩], [65, 66, 67, 68, 69, 70, 0])) ∧
    ((tokenize csvTokConfig 200
        (initTokState [([49, 50, 46, 51, 44, 34, 78, 101, 119, 32, 89, 111, 114, 107,
          44, 32, 78, 89, 34, 44, 34, 51, 39, 50, 34, 34, 34, 10, 88, 10],
          .mayContainNewline)])).map
      (fun p => (p.1, p.2.numFields, p.2.fields, p.2.fieldBuffer)) =
      some (0, 3, [⟨0, 4, false⟩, ⟨5, 12, true⟩, ⟨18, 3, true⟩],
        [49, 50, 46, 51, 0, 78, 101, 119, 32, 89, 111, 114, 107, 44, 32, 78, 89, 0,
          51, 39, 50, 0])) := by
  exact ⟨by decide, by decide, by decide⟩

/-- C7 (code bug): this add_field keeps exactly num_fields entries, each
storing {offset, length, quoted} with the length explicit — it never
appends the extra (num_fields + 1)-th entry that tokenize.h's own comment
(and the claim) describe, and it writes a .length member that the header's
field_info does not even declare.  Kernel evaluation on the row "ab,c":
two fields produce exactly two entries (not three); the adjacent-offset
derivation fields[1].offset - fields[0].offset - 1 = 2 does recover the
first field's length (a NUL separator is written after every field), but
no entry exists beyond the last field. -/
theorem claim_C7_fields_index :
    ((tokenize csvTokConfig 100
        (initTokState [([97, 98, 44, 99, 10, 88, 10], .mayContainNewline)])).map
      (fun p => (p.2.numFields, p.2.fields, p.2.fieldBuffer)) =
      some (2, [⟨0, 2, false⟩, ⟨3, 1, false⟩], [97, 98, 0, 99, 0])) ∧
    ((tokenize csvTokConfig 100
        (initTokState [([97, 98, 44, 99, 10, 88, 10], .mayContainNewline)])).map
      (fun p => decide (p.2.fields.length = p.2.numFields + 1)) = some false) ∧
    ((tokenize csvTokConfig 100
        (initTokState [([97, 98, 44, 99, 10, 88, 10], .mayContainNewline)])).map
      (fun p => decide ((p.2.fields.getD 1 ⟨0, 0, false⟩).offset -
        (p.2.fields.getD 0 ⟨0, 0, false⟩).offset - 1 =
        (p.2.fields.getD 0 ⟨0, 0, false⟩).length)) = some true) := by
  exact ⟨by decide, by decide, by decide⟩

end NpReadText
namespace NpReadText

theorem mapRange_succ (f : Nat → Nat) (n : Nat) :
    (List.range (n + 1)).map f = f 0 :: (List.range n).map (fun i => f (i + 1)) := by
  rw [List.range_succ_eq_map, List.map_cons, List.map_map]
  rfl

theorem fbPending_cons (fb : FileBuffer) (h : fb.currentBufferPos < fb.lastPos) :
    fbPending fb = fb.buf fb.currentBufferPos ::
      fbPending { fb with currentBufferPos := fb.currentBufferPos + 1 } := by
  unfold fbPending
  obtain ⟨m, hm⟩ : ∃ m, fb.lastPos - fb.currentBufferPos = m + 1 :=
    ⟨fb.lastPos - fb.currentBufferPos - 1, by omega⟩
  have hm2 : fb.lastPos - (fb.currentBufferPos + 1) = m := by omega
  rw [hm]
  simp only [hm2]
  rw [mapRange_succ]
  simp only [List.cons_append, Nat.add_zero]
  congr 1
  congr 1
  exact List.map_congr_left (fun i _ => by congr 1; omega)

theorem fbPending_nil_iff (fb : FileBuffer) (hfp : fb.filePos ≤ fb.fileData.length) :
    fbPending fb = [] ↔
      (fb.lastPos - fb.currentBufferPos = 0 ∧ fb.filePos = fb.fileData.length) := by
  unfold fbPending
  constructor
  · intro h
    rcases List.append_eq_nil.mp h with ⟨h1, h2⟩
    constructor
    · have := congrArg List.length h1
      simpa using this
    · have := congrArg List.length h2
      simp at this
      omega
  · intro ⟨h1, h2⟩
    rw [h1, h2]
    simp

theorem fileSegment_drop (l : List Nat) :
    ∀ (n p : Nat), p + n ≤ l.length →
      (List.range n).map (fun i => l.getD (p + i) 0) ++ l.drop (p + n) = l.drop p := by
  intro n
  induction n with
  | zero => intro p _; simp
  | succ m ih =>
    intro p hp
    rw [mapRange_succ]
    have hdrop : l.drop p = l.getD p 0 :: l.drop (p + 1) := by
      have hlt : p < l.length := by omega
      rw [List.getD_eq_getElem l 0 hlt]
      exact List.drop_eq_getElem_cons hlt
    rw [hdrop]
    simp only [Nat.add_zero, List.cons_append]
    congr 1
    have harith : p + (m + 1) = (p + 1) + m := by omega
    rw [harith, ← ih (p + 1) (by omega)]
    congr 1
    exact List.map_congr_left (fun i _ => by
      rw [show p + (i + 1) = p + 1 + i from by omega])




end NpReadText
namespace NpReadText

theorem fbPending_length (fb : FileBuffer) :
    (fbPending fb).length =
      (fb.lastPos - fb.currentBufferPos) + (fb.fileData.length - fb.filePos) := by
  simp [fbPending]

theorem fb_load_fired (fb : FileBuffer)
    (h : fb.reachedEof = false ∧ (fb.currentBufferPos = fb.lastPos ∨
      fb.currentBufferPos + 1 = fb.lastPos)) :
    fb_load fb =
      { fb with buf := fbBuf2 fb,
                filePos := fb.filePos + fbNumRead fb,
                currentBufferPos := 0,
                lastPos := fbNumRead fb + fbK fb,
                reachedEof := if fbNumRead fb < fb.bufferSize - fbK fb then true
                              else fb.reachedEof } := by
  unfold fb_load
  rw [if_pos h]

theorem fb_load_skip (fb : FileBuffer)
    (h : ¬(fb.reachedEof = false ∧ (fb.currentBufferPos = fb.lastPos ∨
      fb.currentBufferPos + 1 = fb.lastPos))) :
    fb_load fb = fb := by
  unfold fb_load
  rw [if_neg h]

theorem fb_load_spec (fb : FileBuffer) (hInv : FbInv fb) (hbs : 2 ≤ fb.bufferSize) :
    FbInv (fb_load fb) ∧
    fbPending (fb_load fb) = fbPending fb ∧
    (fb_load fb).lineNumber = fb.lineNumber ∧
    (fb_load fb).fileData = fb.fileData ∧
    (fb_load fb).bufferSize = fb.bufferSize ∧
    (1 ≤ (fbPending fb).length →
      (fb_load fb).currentBufferPos < (fb_load fb).lastPos) ∧
    (2 ≤ (fbPending fb).length →
      (fb_load fb).currentBufferPos + 1 < (fb_load fb).lastPos) := by
  obtain ⟨hcl, hlb, hfp, heof⟩ := hInv
  have hplen := fbPending_length fb
  by_cases hcond : fb.reachedEof = false ∧ (fb.currentBufferPos = fb.lastPos ∨
      fb.currentBufferPos + 1 = fb.lastPos)
  · -- the load fires
    obtain ⟨hne, hor⟩ := hcond
    have hL := fb_load_fired fb ⟨hne, hor⟩
    have hnr1 : fbNumRead fb ≤ fb.bufferSize - fbK fb := min_le_left _ _
    have hnr2 : fbNumRead fb ≤ fb.fileData.length - fb.filePos := min_le_right _ _
    have hnrC : fbNumRead fb = fb.bufferSize - fbK fb ∨
        fbNumRead fb = fb.fileData.length - fb.filePos := min_choice _ _
    have hk1 : fbK fb ≤ 1 := by
      unfold fbK
      rcases hor with h | h <;> omega
    have hInv2 : FbInv (fb_load fb) := by
      rw [hL]
      refine ⟨?_, ?_, ?_, ?_⟩
      · show (0 : Nat) ≤ fbNumRead fb + fbK fb
        omega
      · show fbNumRead fb + fbK fb ≤ fb.bufferSize
        unfold fbK at hnr1 hk1 ⊢
        omega
      · show fb.filePos + fbNumRead fb ≤ fb.fileData.length
        omega
      · show (if fbNumRead fb < fb.bufferSize - fbK fb then true else fb.reachedEof) =
            true → fb.filePos + fbNumRead fb = fb.fileData.length
        intro hif
        split at hif
        · omega
        · rw [hne] at hif
          cases hif
    have hpend : fbPending (fb_load fb) = fbPending fb := by
      rw [hL]
      unfold fbPending
      simp only [Nat.sub_zero]
      have hfile : fb.filePos + fbNumRead fb ≤ fb.fileData.length := by omega
      rcases hor with h0 | h1
      · -- k = 0: the buffer was empty
        have hk : fbK fb = 0 := by unfold fbK; omega
        rw [hk, Nat.add_zero]
        have hslice : (List.range (fb.lastPos - fb.currentBufferPos)).map
            (fun i => fb.buf (fb.currentBufferPos + i)) = [] := by
          rw [show fb.lastPos - fb.currentBufferPos = 0 from by omega]
          rfl
        rw [hslice, List.nil_append]
        have hmap : (List.range (fbNumRead fb)).map (fun i => fbBuf2 fb (0 + i)) =
            (List.range (fbNumRead fb)).map (fun i => fb.fileData.getD (fb.filePos + i) 0) := by
          apply List.map_congr_left
          intro i hi
          rw [List.mem_range] at hi
          unfold fbBuf2
          rw [hk]
          rw [if_pos ⟨by omega, by omega⟩]
          rw [Nat.sub_zero, Nat.zero_add]
        rw [hmap]
        exact fileSegment_drop fb.fileData (fbNumRead fb) fb.filePos (by omega)
      · -- k = 1: one byte is moved to the front
        have hk : fbK fb = 1 := by unfold fbK; omega
        rw [hk]
        have hslice : (List.range (fb.lastPos - fb.currentBufferPos)).map
            (fun i => fb.buf (fb.currentBufferPos + i)) = [fb.buf fb.currentBufferPos] := by
          rw [show fb.lastPos - fb.currentBufferPos = 1 from by omega]
          rw [show List.range 1 = [0] from rfl]
          simp only [List.map_cons, List.map_nil, Nat.add_zero]
        rw [hslice]
        rw [mapRange_succ]
        have hhead : fbBuf2 fb (0 + 0) = fb.buf fb.currentBufferPos := by
          unfold fbBuf2
          rw [hk]
          rw [if_neg (by omega), if_pos ⟨rfl, rfl⟩]
        have htail : (List.range (fbNumRead fb)).map (fun i => fbBuf2 fb (0 + (i + 1))) =
            (List.range (fbNumRead fb)).map (fun i => fb.fileData.getD (fb.filePos + i) 0) := by
          apply List.map_congr_left
          intro i hi
          rw [List.mem_range] at hi
          unfold fbBuf2
          rw [hk]
          rw [if_pos ⟨by omega, by omega⟩]
          congr 1
          omega
        rw [hhead, htail, List.cons_append, List.singleton_append]
        congr 1
        exact fileSegment_drop fb.fileData (fbNumRead fb) fb.filePos (by omega)
    refine ⟨hInv2, hpend, by rw [hL], by rw [hL], by rw [hL], ?_, ?_⟩
    · intro hp1
      rw [hL]
      show 0 < fbNumRead fb + fbK fb
      by_contra hz
      have hz2 : fbNumRead fb = 0 ∧ fbK fb = 0 := by omega
      have : fb.fileData.length - fb.filePos = 0 := by
        rcases hnrC with h | h
        · unfold fbK at hz2
          omega
        · omega
      unfold fbK at hz2
      omega
    · intro hp2
      rw [hL]
      show 0 + 1 < fbNumRead fb + fbK fb
      by_contra hz
      have hle : fbNumRead fb + fbK fb ≤ 1 := by omega
      by_cases hrem : fb.fileData.length - (fb.filePos + fbNumRead fb) = 0
      · unfold fbK at hle
        omega
      · have : fbNumRead fb < fb.fileData.length - fb.filePos := by omega
        have hbsk : fbNumRead fb = fb.bufferSize - fbK fb := by
          rcases hnrC with h | h
          · exact h
          · omega
        omega
  · -- the load does not fire
    have hL := fb_load_skip fb hcond
    rw [hL]
    refine ⟨⟨hcl, hlb, hfp, heof⟩, rfl, rfl, rfl, rfl, ?_, ?_⟩
    · intro hp1
      by_cases he : fb.reachedEof = true
      · have := heof he
        omega
      · have he2 : fb.reachedEof = false := by
          cases hre : fb.reachedEof
          · rfl
          · exact absurd hre he
        have : ¬(fb.currentBufferPos = fb.lastPos ∨
            fb.currentBufferPos + 1 = fb.lastPos) := by
          intro hx
          exact hcond ⟨he2, hx⟩
        omega
    · intro hp2
      by_cases he : fb.reachedEof = true
      · have := heof he
        omega
      · have he2 : fb.reachedEof = false := by
          cases hre : fb.reachedEof
          · rfl
          · exact absurd hre he
        have : ¬(fb.currentBufferPos = fb.lastPos ∨
            fb.currentBufferPos + 1 = fb.lastPos) := by
          intro hx
          exact hcond ⟨he2, hx⟩
        omega

theorem fb_fetch_eof (fb : FileBuffer) (hInv : FbInv fb) (hbs : 2 ≤ fb.bufferSize)
    (hp : fbPending fb = []) :
    fb_fetch fb = (.eof, fb_load fb) := by
  obtain ⟨hI2, hpend, _, _, _, _, _⟩ := fb_load_spec fb hInv hbs
  have hp2 : fbPending (fb_load fb) = [] := by rw [hpend, hp]
  obtain ⟨hcl, _, hfp, _⟩ := hI2
  have hz := (fbPending_nil_iff (fb_load fb) hfp).mp hp2
  unfold fb_fetch
  dsimp only
  rw [if_pos (show (fb_load fb).currentBufferPos = (fb_load fb).lastPos from by omega)]

theorem fb_fetch_crlf (fb : FileBuffer) (hInv : FbInv fb) (hbs : 2 ≤ fb.bufferSize)
    (rest : List Nat) (hp : fbPending fb = 13 :: 10 :: rest) :
    ∃ fb2, fb_fetch fb = (.char 10, fb2) ∧ fbPending fb2 = rest ∧ FbInv fb2 ∧
      fb2.lineNumber = fb.lineNumber + 1 ∧ fb2.bufferSize = fb.bufferSize := by
  obtain ⟨hI2, hpend, hline, hfile, hbs2, hg1, hg2⟩ := fb_load_spec fb hInv hbs
  have hlen2 : 2 ≤ (fbPending fb).length := by rw [hp]; simp
  have hlt : (fb_load fb).currentBufferPos + 1 < (fb_load fb).lastPos := hg2 hlen2
  have hpg : fbPending (fb_load fb) = 13 :: 10 :: rest := by rw [hpend, hp]
  set g := fb_load fb with hgdef
  have hc1 : fbPending g = g.buf g.currentBufferPos ::
      fbPending { g with currentBufferPos := g.currentBufferPos + 1 } :=
    fbPending_cons g (by omega)
  have hc2 : fbPending { g with currentBufferPos := g.currentBufferPos + 1 } =
      g.buf (g.currentBufferPos + 1) ::
      fbPending { g with currentBufferPos := g.currentBufferPos + 2 } :=
    fbPending_cons { g with currentBufferPos := g.currentBufferPos + 1 }
      (show g.currentBufferPos + 1 < g.lastPos from hlt)
  rw [hc1, hc2] at hpg
  injection hpg with h13 hpg2
  injection hpg2 with h10 hrest
  obtain ⟨hA, hB, hC, hD⟩ := hI2
  refine ⟨{ g with currentBufferPos := g.currentBufferPos + 2, lineNumber := g.lineNumber + 1 }, ?_, ?_, ?_, ?_, ?_⟩
  · unfold fb_fetch
    rw [← hgdef]
    dsimp only
    rw [if_neg (show ¬(g.currentBufferPos = g.lastPos) from by omega),
        if_pos (show g.currentBufferPos + 1 < g.lastPos ∧
          g.buf g.currentBufferPos = 13 ∧ g.buf (g.currentBufferPos + 1) = 10 from
          ⟨hlt, h13, h10⟩)]
  · unfold fbPending at hrest ⊢
    dsimp only at hrest ⊢
    exact hrest
  · unfold FbInv
    refine ⟨?_, ?_, ?_, ?_⟩
    · show g.currentBufferPos + 2 ≤ g.lastPos
      omega
    · show g.lastPos ≤ g.bufferSize
      exact hB
    · show g.filePos ≤ g.fileData.length
      exact hC
    · show g.reachedEof = true → g.filePos = g.fileData.length
      exact hD
  · show g.lineNumber + 1 = fb.lineNumber + 1
    rw [hline]
  · show g.bufferSize = fb.bufferSize
    exact hbs2

theorem fb_fetch_char (fb : FileBuffer) (hInv : FbInv fb) (hbs : 2 ≤ fb.bufferSize)
    (c : Nat) (rest : List Nat) (hp : fbPending fb = c :: rest)
    (hnp : ¬(c = 13 ∧ rest.head? = some 10)) :
    ∃ fb2, fb_fetch fb = (.char c, fb2) ∧ fbPending fb2 = rest ∧ FbInv fb2 ∧
      fb2.lineNumber = fb.lineNumber + (if c = 10 then 1 else 0) ∧
      fb2.bufferSize = fb.bufferSize := by
  obtain ⟨hI2, hpend, hline, hfile, hbs2, hg1, hg2⟩ := fb_load_spec fb hInv hbs
  have hlen1 : 1 ≤ (fbPending fb).length := by rw [hp]; simp
  have hlt : (fb_load fb).currentBufferPos < (fb_load fb).lastPos := hg1 hlen1
  have hpg : fbPending (fb_load fb) = c :: rest := by rw [hpend, hp]
  set g := fb_load fb with hgdef
  have hc1 : fbPending g = g.buf g.currentBufferPos ::
      fbPending { g with currentBufferPos := g.currentBufferPos + 1 } :=
    fbPending_cons g hlt
  rw [hc1] at hpg
  injection hpg with hc hrest
  obtain ⟨hA, hB, hC, hD⟩ := hI2
  have hnotq : ¬(g.currentBufferPos + 1 < g.lastPos ∧
      g.buf g.currentBufferPos = 13 ∧ g.buf (g.currentBufferPos + 1) = 10) := by
    intro ⟨hq1, hq2, hq3⟩
    apply hnp
    refine ⟨by rw [← hc]; exact hq2, ?_⟩
    have hc2 : fbPending { g with currentBufferPos := g.currentBufferPos + 1 } =
        g.buf (g.currentBufferPos + 1) ::
        fbPending { g with currentBufferPos := g.currentBufferPos + 2 } :=
      fbPending_cons { g with currentBufferPos := g.currentBufferPos + 1 }
        (show g.currentBufferPos + 1 < g.lastPos from hq1)
    rw [← hrest, hc2, hq3]
    rfl
  by_cases hc10 : c = 10
  · refine ⟨{ g with currentBufferPos := g.currentBufferPos + 1, lineNumber := g.lineNumber + 1 }, ?_, ?_, ?_, ?_, ?_⟩
    · unfold fb_fetch
      rw [← hgdef]
      dsimp only
      rw [if_neg (show ¬(g.currentBufferPos = g.lastPos) from by omega),
          if_neg hnotq, hc, if_pos hc10]
    · unfold fbPending at hrest ⊢
      dsimp only at hrest ⊢
      exact hrest
    · unfold FbInv
      refine ⟨?_, ?_, ?_, ?_⟩
      · show g.currentBufferPos + 1 ≤ g.lastPos
        omega
      · show g.lastPos ≤ g.bufferSize
        exact hB
      · show g.filePos ≤ g.fileData.length
        exact hC
      · show g.reachedEof = true → g.filePos = g.fileData.length
        exact hD
    · show g.lineNumber + 1 = fb.lineNumber + (if c = 10 then 1 else 0)
      rw [hline, if_pos hc10]
    · show g.bufferSize = fb.bufferSize
      exact hbs2
  · refine ⟨{ g with currentBufferPos := g.currentBufferPos + 1 }, ?_, ?_, ?_, ?_, ?_⟩
    · unfold fb_fetch
      rw [← hgdef]
      dsimp only
      rw [if_neg (show ¬(g.currentBufferPos = g.lastPos) from by omega),
          if_neg hnotq, hc, if_neg hc10]
    · unfold fbPending at hrest ⊢
      dsimp only at hrest ⊢
      exact hrest
    · unfold FbInv
      refine ⟨?_, ?_, ?_, ?_⟩
      · show g.currentBufferPos + 1 ≤ g.lastPos
        omega
      · show g.lastPos ≤ g.bufferSize
        exact hB
      · show g.filePos ≤ g.fileData.length
        exact hC
      · show g.reachedEof = true → g.filePos = g.fileData.length
        exact hD
    · show g.lineNumber = fb.lineNumber + (if c = 10 then 1 else 0)
      rw [hline, if_neg hc10]
      omega
    · show g.bufferSize = fb.bufferSize
      exact hbs2

theorem crlfTranslate_cons (c : Nat) (rest : List Nat)
    (h : ¬(c = 13 ∧ rest.head? = some 10)) :
    crlfTranslate (c :: rest) = c :: crlfTranslate rest := by
  match rest with
  | [] => rfl
  | c2 :: r2 =>
    have hne : ¬(c = 13 ∧ c2 = 10) := by
      intro ⟨h1, h2⟩
      exact h ⟨h1, by rw [h2]; rfl⟩
    simp only [crlfTranslate, if_neg hne]


theorem fetchAll_spec : ∀ (fuel : Nat) (fb : FileBuffer), FbInv fb →
    2 ≤ fb.bufferSize → (fbPending fb).length < fuel →
    (fetchAll fuel fb).1 = crlfTranslate (fbPending fb) ∧
    (fetchAll fuel fb).2.lineNumber =
      fb.lineNumber + ((crlfTranslate (fbPending fb)).count 10 : Int) := by
  intro fuel
  induction fuel with
  | zero =>
    intro fb _ _ hlen
    omega
  | succ n ih =>
    intro fb hInv hbs hlen
    cases hp : fbPending fb with
    | nil =>
      have hE := fb_fetch_eof fb hInv hbs hp
      obtain ⟨_, _, hline, _, _, _, _⟩ := fb_load_spec fb hInv hbs
      have hFA : fetchAll (n + 1) fb = ([], fb_load fb) := by
        simp only [fetchAll, hE]
      rw [hFA]
      exact ⟨rfl, by simp [crlfTranslate, hline]⟩
    | cons c rest =>
      by_cases hpair : c = 13 ∧ rest.head? = some 10
      · obtain ⟨hc13, hh⟩ := hpair
        match rest, hh with
        | a :: r2, hh =>
          have ha : a = 10 := by
            injection hh
          subst hc13 ha
          obtain ⟨fb2, hF, hp2, hI2, hl2, hb2⟩ := fb_fetch_crlf fb hInv hbs r2 hp
          have hlen2 : (fbPending fb2).length < n := by
            rw [hp2]
            rw [hp] at hlen
            simp at hlen ⊢
            omega
          obtain ⟨ih1, ih2⟩ := ih fb2 hI2 (by omega) hlen2
          have hFA : fetchAll (n + 1) fb =
              (10 :: (fetchAll n fb2).1, (fetchAll n fb2).2) := by
            simp only [fetchAll, hF]
          have hct : crlfTranslate (13 :: 10 :: r2) = 10 :: crlfTranslate r2 := by
            simp [crlfTranslate]
          rw [hFA, hct]
          constructor
          · rw [ih1, hp2]
          · simp only [ih2, hp2, hl2, List.count_cons]
            push_cast
            simp
            omega
      · obtain ⟨fb2, hF, hp2, hI2, hl2, hb2⟩ := fb_fetch_char fb hInv hbs c rest hp hpair
        have hlen2 : (fbPending fb2).length < n := by
          rw [hp2]
          rw [hp] at hlen
          simp at hlen
          omega
        obtain ⟨ih1, ih2⟩ := ih fb2 hI2 (by omega) hlen2
        have hFA : fetchAll (n + 1) fb =
            (c :: (fetchAll n fb2).1, (fetchAll n fb2).2) := by
          simp only [fetchAll, hF]
        have hct : crlfTranslate (c :: rest) = c :: crlfTranslate rest :=
          crlfTranslate_cons c rest hpair
        rw [hFA, hct]
        constructor
        · rw [ih1, hp2]
        · simp only [ih2, hp2, hl2, List.count_cons]
          by_cases hc10 : c = 10
          · subst hc10
            simp
            omega
          · simp only [beq_iff_eq, if_neg hc10]
            push_cast
            omega

theorem fbPending_init (content : List Nat) (bufferSize : Nat) :
    fbPending (initFileBuffer content bufferSize) = content := by
  simp [fbPending, initFileBuffer]

theorem FbInv_init (content : List Nat) (bufferSize : Nat) :
    FbInv (initFileBuffer content bufferSize) := by
  refine ⟨Nat.le_refl _, Nat.zero_le _, Nat.zero_le _, fun h => by cases h⟩


/-- C10: every byte sequence read through the file-backed stream is
delivered with each CR LF pair folded into a single LF, and the line
counter (started at 1 by stream_file) is incremented exactly once per
delivered newline — for every buffer size of at least two bytes, so in
particular when the pair straddles a refill: _fb_load moves the leftover
CR to the front of the buffer before reading more, and fb_fetch only
delivers it after the following LF is in the same buffer. -/
theorem claim_C10_crlf_translation (content : List Nat) (bufferSize fuel : Nat)
    (hbs : 2 ≤ bufferSize) (hfuel : content.length < fuel) :
    (fetchAll fuel (initFileBuffer content bufferSize)).1 = crlfTranslate content ∧
    (fetchAll fuel (initFileBuffer content bufferSize)).2.lineNumber =
      1 + ((crlfTranslate content).count 10 : Int) := by
  have h := fetchAll_spec fuel (initFileBuffer content bufferSize)
    (FbInv_init content bufferSize) hbs
    (by rw [fbPending_init]; exact hfuel)
  rw [fbPending_init] at h
  exact h

/-- Witness for C10 at buffer size 2 on the content "ab\r\nc": the CR is
read into one buffer fill and the LF only arrives with the next, yet the
stream delivers a single newline and counts one line break. -/
theorem claim_C10_crlf_translation_witness :
    (fetchAll 6 (initFileBuffer [97, 98, 13, 10, 99] 2)).1 = [97, 98, 10, 99] ∧
    (fetchAll 6 (initFileBuffer [97, 98, 13, 10, 99] 2)).2.lineNumber = 2 := by
  have h := claim_C10_crlf_translation [97, 98, 13, 10, 99] 2 6 (by decide) (by decide)
  exact ⟨h.1.trans (by decide), h.2.trans (by decide)⟩

end NpReadText
